import Mathlib

/-!
Verification development for a Ludo-variant game engine with a tabular
Q-learning agent.  The definitions below are a shallow embedding of the
Python sources:

* `rl/environment.py` — the `LudoEnvironment` state machine (the engine that
  `rl/simulation.py` actually drives).  Python machine integers are embedded
  as `Int`/`Nat` (Python ints are unbounded, so no wrap-around is modelled),
  float rewards as `ℚ` (exact arithmetic standing in for IEEE floats — every
  reward is a small dyadic/decimal constant), the mutable object as an
  explicit `Env` value threaded through each method, and `random.Random` as
  a fixed stream `Nat → Nat` plus an index: `randint(1, n)` at index `i` is
  embedded as `1 + stream i % n`, which is deterministic and lands in
  `[1, n]` exactly as `randint` does.
* `rl/movement.py` — the alternative `MovementHandler` (chase-loop) movement
  code, which `environment.py` never calls but whose behaviour claim C1 is
  about.
* `rl/agent.py` — the tabular Q-learning agent; its `defaultdict(float)`
  Q-table is embedded as an association list with first-match lookup
  defaulting to `0` (a dict write is a prepend, which is observationally the
  same through that lookup).
-/

namespace Ludo

/-- Immutable configuration fields of `LudoEnvironment` (set in
`__post_init__` and never reassigned afterwards).  `power_squares` and the
two effect tables are stored in their post-`__post_init__` normalized form
(squares reduced `% board_size`, zero deltas dropped, magnitudes `abs`-ed). -/
structure GameConfig where
  board_size : Nat
  num_players : Nat
  num_pawns : Nat
  dice_sides : Nat
  power_squares : List Int
  power_bonus : Int
  shortcut_squares : List (Int × Int)
  construction_zones : List (Int × Int)
  max_turns : Nat
  allow_odd_split : Bool
  enable_capture : Bool
deriving DecidableEq

/-- The mutable state of `LudoEnvironment` plus its configuration.
`positions` is the seat×pawn grid of progress values, `pending_roll` is
`None` exactly in terminal states. -/
structure Env where
  cfg : GameConfig
  rngStream : Nat → Nat
  rngIdx : Nat
  positions : List (List Int)
  turns : Nat
  current_player : Nat
  pending_roll : Option Int

def Env.board_size (e : Env) : Nat := e.cfg.board_size
def Env.num_players (e : Env) : Nat := e.cfg.num_players
def Env.num_pawns (e : Env) : Nat := e.cfg.num_pawns
def Env.dice_sides (e : Env) : Nat := e.cfg.dice_sides
def Env.power_squares (e : Env) : List Int := e.cfg.power_squares
def Env.power_bonus (e : Env) : Int := e.cfg.power_bonus
def Env.shortcut_squares (e : Env) : List (Int × Int) := e.cfg.shortcut_squares
def Env.construction_zones (e : Env) : List (Int × Int) := e.cfg.construction_zones
def Env.max_turns (e : Env) : Nat := e.cfg.max_turns
def Env.allow_odd_split (e : Env) : Bool := e.cfg.allow_odd_split
def Env.enable_capture (e : Env) : Bool := e.cfg.enable_capture

/-- The heterogeneous Python tuples used as `ActionOption.key`
(`("entry", player, pawn)`, `("single", player, pawn, roll)`,
`("split", player, roll, primary, secondary, first_allocation)`,
`("pass", player, roll)`, `("invalid",)`). -/
inductive ActionKey where
  | entry (player : Nat) (pawn : Nat)
  | single (player : Nat) (pawn : Nat) (roll : Int)
  | split (player : Nat) (roll : Int) (primary : Nat) (secondary : Nat) (firstAllocation : Int)
  | pass (player : Nat) (roll : Int)
  | invalid
deriving DecidableEq

/-- `option.key[0] == "pass"`. -/
def ActionKey.isPass : ActionKey → Bool
  | .pass _ _ => true
  | _ => false

/-- `ActionOption` dataclass of `environment.py`. -/
structure ActionOption where
  key : ActionKey
  player : Nat
  primary : Int
  primary_steps : Int
  primary_entry : Bool := false
  secondary : Option Int := none
  secondary_steps : Int := 0
  secondary_entry : Bool := false
deriving DecidableEq

/-- `CaptureEvent` dataclass. -/
structure CaptureEvent where
  player : Nat
  pawn : Nat
deriving DecidableEq

/-- `SpecialSquareEvent` dataclass of `rl/types.py` (only produced by the
`movement.py` code path). -/
structure SpecialSquareEvent where
  player : Nat
  pawn : Nat
  square : Int
  square_type : String
  steps : Int
  from_position : Int
  to_position : Int
deriving DecidableEq

/-- `StepInfo` dataclass of `environment.py` (which, unlike `rl/types.py`,
has no `special_square_events` field). -/
structure StepInfo where
  roll : Int
  bonus_primary : Int
  bonus_secondary : Int
  turns : Nat
  action_key : ActionKey
  player : Int
  primary : Int
  secondary : Option Int
  primary_steps : Int
  secondary_steps : Int
  positions_before : List Int
  positions_after : List Int
  captures : List CaptureEvent
deriving DecidableEq

/-- The 4-tuple returned by `LudoEnvironment.step`. -/
structure StepRes where
  env : Env
  reward : ℚ
  done : Bool
  info : StepInfo

/-- Read `self.positions[player][pawn]`; out-of-range reads (which would
raise in Python and never happen on the paths proved about) default to the
in-base sentinel `-1`. -/
def getPos (ps : List (List Int)) (player pawn : Nat) : Int :=
  (ps.getD player []).getD pawn (-1)

/-- Write `self.positions[player][pawn] = v` (no-op out of range, where
Python would raise). -/
def setPos (ps : List (List Int)) (player pawn : Nat) (v : Int) : List (List Int) :=
  ps.set player ((ps.getD player []).set pawn v)

/-- `self.start_offsets[player]` where
`start_offsets = [p * (board_size // num_players) for p in range(num_players)]`. -/
def startOffset (e : Env) (player : Nat) : Int :=
  (player * (e.board_size / e.num_players) : Nat)

/-- `LudoEnvironment._start_square`. -/
def startSquare (e : Env) (player : Nat) : Int :=
  startOffset e player % (e.board_size : Int)

/-- `LudoEnvironment._finish_square`. -/
def finishSquare (e : Env) (player : Nat) (slot : Int) : Int :=
  (startOffset e player - (e.num_pawns : Int) + slot + 1) % (e.board_size : Int)

/-- `LudoEnvironment._absolute_square_from_progress`. -/
def absSquare (e : Env) (player : Nat) (progress : Int) : Int :=
  if progress < 0 then -1
  else if (e.board_size : Int) ≤ progress then
    finishSquare e player (progress - (e.board_size : Int))
  else (startOffset e player + progress) % (e.board_size : Int)

/-- Dict lookup `table[square]` / membership `square in table`, on the
normalized effect tables. -/
def lookupEff (table : List (Int × Int)) (square : Int) : Option Int :=
  match table with
  | [] => none
  | kv :: rest => if kv.1 = square then some kv.2 else lookupEff rest square

/-- `LudoEnvironment._has_friendly_on_square` (the `exclude` set is a list;
only membership matters). -/
def hasFriendlyOnSquare (e : Env) (player : Nat) (square : Int) (excludes : List Nat) : Bool :=
  let row := e.positions.getD player []
  (List.range row.length).any fun i =>
    decide (i ∉ excludes ∧ 0 ≤ row.getD i (-1) ∧ row.getD i (-1) < (e.board_size : Int) ∧
      absSquare e player (row.getD i (-1)) = square)

/-- `LudoEnvironment._can_land_without_friend`. -/
def canLandWithoutFriend (e : Env) (player pawn : Nat) (steps : Int) (exclude : Option Nat) : Bool :=
  let progress := getPos e.positions player pawn
  if progress < 0 then true
  else if (e.board_size : Int) ≤ progress + steps then true
  else !hasFriendlyOnSquare e player (absSquare e player (progress + steps)) (pawn :: exclude.toList)

/-- `LudoEnvironment._can_enter_base`. -/
def canEnterBase (e : Env) (player : Nat) : Bool :=
  !hasFriendlyOnSquare e player (startSquare e player) []

/-- `LudoEnvironment._player_finished`. -/
def playerFinishedB (e : Env) (player : Nat) : Bool :=
  (e.positions.getD player []).all fun progress => decide ((e.board_size : Int) ≤ progress)

/-- `LudoEnvironment._next_finish_slot`. -/
def nextFinishSlot (e : Env) (player : Nat) : Int :=
  ((e.positions.getD player []).countP fun progress => decide ((e.board_size : Int) ≤ progress) : Nat)

/-- `LudoEnvironment._bonus`. -/
def bonusE (e : Env) (player pawn : Nat) : Int :=
  let progress := getPos e.positions player pawn
  if progress < 0 ∨ (e.board_size : Int) ≤ progress then 0
  else if absSquare e player progress ∈ e.power_squares then e.power_bonus else 0

/-- `LudoEnvironment._calc_steps`. -/
def calcSteps (e : Env) (player pawn : Nat) (base_roll : Int) : Option Int :=
  let progress := getPos e.positions player pawn
  if progress < 0 ∨ (e.board_size : Int) ≤ progress then none
  else some (min (base_roll + bonusE e player pawn) ((e.board_size : Int) - progress))

/-- The entry `ActionOption` built by `_build_single_option`. -/
def entryOption (player pawn : Nat) : ActionOption :=
  { key := .entry player pawn, player := player, primary := (pawn : Int),
    primary_steps := 0, primary_entry := true }

/-- The single-move `ActionOption` built by `_build_single_option`. -/
def singleOption (player pawn : Nat) (roll steps : Int) : ActionOption :=
  { key := .single player pawn roll, player := player, primary := (pawn : Int),
    primary_steps := steps }

/-- The pass `ActionOption` synthesized by `available_actions`. -/
def passOption (player : Nat) (roll : Int) : ActionOption :=
  { key := .pass player roll, player := player, primary := -1, primary_steps := 0 }

/-- The split `ActionOption` built inside `available_actions`. -/
def splitOption (player : Nat) (roll : Int) (primary secondary : Nat)
    (firstAllocation sp ss : Int) : ActionOption :=
  { key := .split player roll primary secondary firstAllocation, player := player,
    primary := (primary : Int), primary_steps := sp,
    secondary := some (secondary : Int), secondary_steps := ss }

/-- `LudoEnvironment._build_single_option` (`progress` inlined). -/
def buildSingleOption (e : Env) (player pawn : Nat) (roll : Int) : Option ActionOption :=
  if getPos e.positions player pawn < 0 then
    if roll ≠ 6 ∨ ¬ canEnterBase e player then none
    else some (entryOption player pawn)
  else
    match calcSteps e player pawn roll with
    | none => none
    | some steps =>
      if steps ≤ 0 then none
      else if ¬ canLandWithoutFriend e player pawn steps none then none
      else some (singleOption player pawn roll steps)

/-- Indices of the current seat's not-yet-finished pawns (`unfinished` in
`available_actions`; `enumerate` is embedded as an index range). -/
def unfinishedIdx (e : Env) (player : Nat) : List Nat :=
  let row := e.positions.getD player []
  (List.range row.length).filter fun i => decide (row.getD i (-1) < (e.board_size : Int))

/-- The per-pawn single/entry options of `available_actions`. -/
def singleOptions (e : Env) (player : Nat) (roll : Int) (unfinished : List Nat) :
    List ActionOption :=
  unfinished.filterMap fun pawn => buildSingleOption e player pawn roll

/-- `range(1, roll)` over `Int`. -/
def allocRange (roll : Int) : List Int :=
  (List.range (roll.toNat - 1)).map fun k => Int.ofNat k + 1

/-- The split options of `available_actions` (the nested
primary/secondary/allocation loops). -/
def splitOptions (e : Env) (player : Nat) (roll : Int) (movable : List Nat) :
    List ActionOption :=
  if e.allow_odd_split = true ∧ roll % 2 = 1 ∧ 2 ≤ movable.length ∧ 1 < roll then
    movable.flatMap fun primary =>
      movable.flatMap fun secondary =>
        if primary = secondary then []
        else (allocRange roll).filterMap fun firstAllocation =>
          match calcSteps e player primary firstAllocation,
                calcSteps e player secondary (roll - firstAllocation) with
          | some sp, some ss =>
            if sp ≤ 0 ∧ ss ≤ 0 then none
            else if ¬ canLandWithoutFriend e player primary sp none then none
            else if ¬ canLandWithoutFriend e player secondary ss (some primary) then none
            else some (splitOption player roll primary secondary firstAllocation sp ss)
          | _, _ => none
  else []

/-- `LudoEnvironment.available_actions`, in state-passing form: the method
only reads `self` (no field assignment, no RNG call), so every branch
returns the environment unchanged. -/
def availableActionsSt (e : Env) : List ActionOption × Env :=
  match e.pending_roll with
  | none => ([], e)
  | some roll =>
    let player := e.current_player
    let unfinished := unfinishedIdx e player
    let singles := singleOptions e player roll unfinished
    let movable_for_split := unfinished.filter fun pawn =>
      decide (0 ≤ getPos e.positions player pawn)
    let options := singles ++ splitOptions e player roll movable_for_split
    (if options.isEmpty then [passOption player roll] else options, e)

/-- The option list `available_actions` returns. -/
def available_actions (e : Env) : List ActionOption :=
  (availableActionsSt e).1

/-- `self.state`: the flattened positions tuple plus the current seat. -/
def stateSig (e : Env) : List Int :=
  (e.positions.flatMap fun row => row) ++ [(e.current_player : Int)]

/-- `randint(1, dice_sides)` on the embedded stream. -/
def drawRoll (e : Env) : Int :=
  1 + ((e.rngStream e.rngIdx : Int) % (e.dice_sides : Int))

/-- `LudoEnvironment.reset` (the returned state tuple is recoverable as
`stateSig`; only the successor environment matters here). -/
def resetE (e : Env) : Env :=
  { e with
    positions := List.replicate e.num_players (List.replicate e.num_pawns (-1 : Int)),
    turns := 0, current_player := 0,
    pending_roll := some (drawRoll e), rngIdx := e.rngIdx + 1 }

/-- `LudoEnvironment._advance_turn`. -/
def advanceTurn (e : Env) (done : Bool) : Env :=
  if done then { e with pending_roll := none }
  else { e with
    current_player := (e.current_player + 1) % e.num_players,
    pending_roll := some (drawRoll e), rngIdx := e.rngIdx + 1 }

/-- `LudoEnvironment._check_global_end`. -/
def checkGlobalEnd (e : Env) : Bool :=
  playerFinishedB e 0 || decide (e.max_turns ≤ e.turns)

/-- `any(self._player_finished(idx) for idx in range(1, self.num_players))`. -/
def otherWinnerB (e : Env) : Bool :=
  ((List.range e.num_players).drop 1).any fun idx => playerFinishedB e idx

/-- `LudoEnvironment._resolve_captures`: predicate for an opposing on-lap
pawn standing on the capture square. -/
def capHit (e : Env) (player : Nat) (square : Int) (op : Nat) (p : Int) : Prop :=
  op ≠ player ∧ 0 ≤ p ∧ p < (e.board_size : Int) ∧ absSquare e op p = square

instance (e : Env) (player : Nat) (square : Int) (op : Nat) (p : Int) :
    Decidable (capHit e player square op p) := by
  unfold capHit; infer_instance

/-- `LudoEnvironment._resolve_captures`.  The Python double loop mutates
other seats' rows in place while appending events; row indices are read
ahead of any write to them, so it is embedded as a rebuild of the grid plus
the event list in the same (seat-ascending, pawn-ascending) order. -/
def resolveCaptures (e : Env) (player pawn : Nat) : Env × List CaptureEvent :=
  if e.enable_capture = false then (e, []) else
  let progress := getPos e.positions player pawn
  if progress < 0 ∨ (e.board_size : Int) ≤ progress then (e, []) else
  let square := absSquare e player progress
  let newPositions := (List.range e.positions.length).map fun op =>
    let row := e.positions.getD op []
    (List.range row.length).map fun pw =>
      if capHit e player square op (row.getD pw (-1)) then -1 else row.getD pw (-1)
  let events := (List.range e.positions.length).flatMap fun op =>
    let row := e.positions.getD op []
    (List.range row.length).filterMap fun pw =>
      if capHit e player square op (row.getD pw (-1)) then some ⟨op, pw⟩ else none
  ({ e with positions := newPositions }, events)

/-- The `delta` computed in `_apply_square_effect`: the shortcut table is
checked first (`elif` gives shortcut precedence), construction deltas are
negated, and an absent square yields `0`. -/
def effectDelta (e : Env) (square : Int) : Int :=
  match lookupEff e.shortcut_squares square with
  | some d => d
  | none =>
    match lookupEff e.construction_zones square with
    | some d => -d
    | none => 0

/-- `LudoEnvironment._apply_square_effect` (`progress`, `square`, `delta`,
`new_progress` inlined).  Note: the delta is applied exactly once — there is
no loop here. -/
def applySquareEffect (e : Env) (player pawn : Nat) : Env × List CaptureEvent :=
  if getPos e.positions player pawn < 0 ∨
      (e.board_size : Int) ≤ getPos e.positions player pawn then (e, [])
  else if effectDelta e (absSquare e player (getPos e.positions player pawn)) = 0 then (e, [])
  else if getPos e.positions player pawn +
      effectDelta e (absSquare e player (getPos e.positions player pawn)) < 0 then
    ({ e with positions := setPos e.positions player pawn (-1) }, [])
  else if (e.board_size : Int) ≤ getPos e.positions player pawn +
      effectDelta e (absSquare e player (getPos e.positions player pawn)) then
    ({ e with positions :=
        setPos e.positions player pawn ((e.board_size : Int) + nextFinishSlot e player) }, [])
  else if hasFriendlyOnSquare e player
      (absSquare e player (getPos e.positions player pawn +
        effectDelta e (absSquare e player (getPos e.positions player pawn)))) [pawn] then (e, [])
  else
    resolveCaptures
      { e with positions := (setPos e.positions player pawn
          (getPos e.positions player pawn +
            effectDelta e (absSquare e player (getPos e.positions player pawn)))) }
      player pawn

/-- `LudoEnvironment._advance_pawn`. -/
def advancePawn (e : Env) (player pawn : Nat) (steps : Int) : Env × List CaptureEvent :=
  let progress := getPos e.positions player pawn
  if progress < 0 then (e, []) else
  if (e.board_size : Int) ≤ progress + steps then
    ({ e with positions :=
        setPos e.positions player pawn ((e.board_size : Int) + nextFinishSlot e player) }, [])
  else
    let e1 := { e with positions := setPos e.positions player pawn (progress + steps) }
    let rc := resolveCaptures e1 player pawn
    let ae := applySquareEffect rc.1 player pawn
    (ae.1, rc.2 ++ ae.2)

/-- `LudoEnvironment._invalid_info`. -/
def invalidInfo (e : Env) : StepInfo :=
  { roll := 0, bonus_primary := 0, bonus_secondary := 0, turns := e.turns,
    action_key := .invalid, player := -1, primary := -1, secondary := none,
    primary_steps := 0, secondary_steps := 0,
    positions_before := stateSig e, positions_after := stateSig e, captures := [] }

/-- The `StepInfo` produced on the pass branch of `step`. -/
def passInfo (e : Env) (roll : Int) (o : ActionOption) : StepInfo :=
  { roll := roll, bonus_primary := 0, bonus_secondary := 0, turns := e.turns,
    action_key := o.key, player := (o.player : Nat), primary := -1, secondary := none,
    primary_steps := 0, secondary_steps := 0,
    positions_before := stateSig e, positions_after := stateSig e, captures := [] }

/-- One sub-move of `step`: the `primary_entry`/plain-advance execution of a
pawn (`None` signals the entry validity checks failed, which `step` turns
into an invalid outcome with penalty `-2.0`).  The third component is the
contribution to `total_moved`. -/
def execMove (e : Env) (roll : Int) (player pawn : Nat) (entry : Bool) (steps : Int) :
    Option (Env × List CaptureEvent × Int) :=
  if entry then
    if roll ≠ 6 ∨ getPos e.positions player pawn ≠ -1 then none
    else if ¬ canEnterBase e player then none
    else
      let ea := { e with positions := setPos e.positions player pawn 0 }
      let rc := resolveCaptures ea player pawn
      let ae := applySquareEffect rc.1 player pawn
      some (ae.1, rc.2 ++ ae.2, 0)
  else some ((advancePawn e player pawn steps).1, (advancePawn e player pawn steps).2, steps)

/-- The reward/termination/bookkeeping tail of `step` after both sub-moves
have executed (`environment.py` lines 232–273). -/
def stepTail (roll : Int) (o : ActionOption) (pb : List Int)
    (bonusP bonusS total stepsP stepsS : Int) (e2 : Env) (caps : List CaptureEvent) :
    StepRes :=
  let r1 : ℚ := -(1/2) + (total : ℚ) * (1/10) + (caps.length : ℚ) * (3/2)
  let r2 : ℚ := if playerFinishedB e2 o.player then r1 + 5 else r1
  let pzd := playerFinishedB e2 0
  let ow := otherWinnerB e2
  let dr1 : Bool × ℚ := if pzd then (true, r2 + 25) else if ow then (true, r2 - 15) else (false, r2)
  let dr2 : Bool × ℚ :=
    if e2.max_turns ≤ e2.turns then (true, dr1.2 - 5) else (dr1.1, dr1.2)
  let info : StepInfo :=
    { roll := roll, bonus_primary := bonusP, bonus_secondary := bonusS, turns := e2.turns,
      action_key := o.key, player := (o.player : Nat), primary := o.primary,
      secondary := o.secondary, primary_steps := stepsP, secondary_steps := stepsS,
      positions_before := pb, positions_after := stateSig e2, captures := caps }
  ⟨advanceTurn e2 dr2.1, dr2.2, dr2.1, info⟩

/-- The termination flag computed by the tail of `step`: seat 0 finished,
some other seat finished, or the (already incremented) turn counter reached
`max_turns`. -/
def stepDoneFlag (e2 : Env) : Bool :=
  playerFinishedB e2 0 || otherWinnerB e2 || decide (e2.max_turns ≤ e2.turns)

/-- `LudoEnvironment.step`. -/
def stepE (e0 : Env) (o : ActionOption) : StepRes :=
  let e := { e0 with turns := e0.turns + 1 }
  let r0 : ℚ := -(1/2)
  match e0.pending_roll with
  | none => ⟨e, r0 - 5, false, invalidInfo e⟩
  | some roll =>
    if o.player ≠ e.current_player then ⟨e, r0 - 5, false, invalidInfo e⟩
    else if o.key.isPass then
      let done := checkGlobalEnd e
      ⟨advanceTurn e done, r0 - 1/5, done, passInfo e roll o⟩
    else if ¬ (0 ≤ o.primary ∧ o.primary < (e.num_pawns : Int)) then
      ⟨e, r0 - 5, false, invalidInfo e⟩
    else
      let pb := stateSig e
      let bonusP := if o.primary_entry then 0 else bonusE e o.player o.primary.toNat
      match execMove e roll o.player o.primary.toNat o.primary_entry o.primary_steps with
      | none => ⟨e, r0 - 2, false, invalidInfo e⟩
      | some (e1, caps1, moved1) =>
        match o.secondary with
        | none =>
          stepTail roll o pb bonusP 0 moved1
            (if o.primary_entry then 0 else o.primary_steps) 0 e1 caps1
        | some sec =>
          if ¬ (0 ≤ sec ∧ sec < (e.num_pawns : Int)) then ⟨e1, r0 - 5, false, invalidInfo e1⟩
          else
            let bonusS := if o.secondary_entry then 0 else bonusE e1 o.player sec.toNat
            match execMove e1 roll o.player sec.toNat o.secondary_entry o.secondary_steps with
            | none => ⟨e1, r0 - 2, false, invalidInfo e1⟩
            | some (e2, caps2, moved2) =>
              stepTail roll o pb bonusP bonusS (moved1 + moved2)
                (if o.primary_entry then 0 else o.primary_steps)
                (if o.secondary_entry then 0 else o.secondary_steps)
                e2 (caps1 ++ caps2)

/-- `MovementHandler._is_special_square` (`rl/movement.py`). -/
def isSpecialSquareB (e : Env) (player : Nat) (progress : Int) : Bool :=
  if progress < 0 ∨ (e.board_size : Int) ≤ progress then false
  else
    let square := absSquare e player progress
    (lookupEff e.shortcut_squares square).isSome ||
      (lookupEff e.construction_zones square).isSome

/-- `MovementHandler._continue_until_non_special_square` (`rl/movement.py`):
the chase loop, with the `max_iterations` bound as structural fuel (each
completed move of the loop body consumes one unit, exactly like the
`iterations` counter; every `break` is an early return). -/
def continueUntilNonSpecial (e : Env) (player pawn : Nat) :
    Nat → Env × List CaptureEvent × List SpecialSquareEvent
  | 0 => (e, [], [])
  | fuel + 1 =>
    let progress := getPos e.positions player pawn
    if progress < 0 ∨ (e.board_size : Int) ≤ progress then (e, [], [])
    else if isSpecialSquareB e player progress = false then (e, [], [])
    else
      let square := absSquare e player progress
      let dt : Int × String :=
        match lookupEff e.shortcut_squares square with
        | some d => (d, "shortcut")
        | none =>
          match lookupEff e.construction_zones square with
          | some d => (-d, "construction")
          | none => (0, "")
      if dt.1 = 0 then (e, [], [])
      else
        let newProgress := progress + dt.1
        if newProgress < 0 then
          ({ e with positions := setPos e.positions player pawn (-1) }, [],
            [⟨player, pawn, square, dt.2, dt.1, progress, -1⟩])
        else if (e.board_size : Int) ≤ newProgress then
          let finished := (e.board_size : Int) + nextFinishSlot e player
          ({ e with positions := setPos e.positions player pawn finished }, [],
            [⟨player, pawn, square, dt.2, dt.1, progress, finished⟩])
        else if hasFriendlyOnSquare e player (absSquare e player newProgress) [pawn] then
          (e, [], [])
        else
          let e1 := { e with positions := setPos e.positions player pawn newProgress }
          let rc := resolveCaptures e1 player pawn
          let rest := continueUntilNonSpecial rc.1 player pawn fuel
          (rest.1, rc.2 ++ rest.2.1,
            ⟨player, pawn, square, dt.2, dt.1, progress, newProgress⟩ :: rest.2.2)

/-- `MovementHandler.advance_pawn` (`rl/movement.py`): like
`LudoEnvironment._advance_pawn` but chaining special-square effects through
`_continue_until_non_special_square` (default `max_iterations = 20`). -/
def advancePawnM (e : Env) (player pawn : Nat) (steps : Int) :
    Env × List CaptureEvent × List SpecialSquareEvent :=
  let progress := getPos e.positions player pawn
  if progress < 0 then (e, [], []) else
  if (e.board_size : Int) ≤ progress + steps then
    ({ e with positions :=
        setPos e.positions player pawn ((e.board_size : Int) + nextFinishSlot e player) }, [], [])
  else
    let e1 := { e with positions := setPos e.positions player pawn (progress + steps) }
    let rc := resolveCaptures e1 player pawn
    let rest := continueUntilNonSpecial rc.1 player pawn 20
    (rest.1, rc.2 ++ rest.2.1, rest.2.2)

/-! ### The Q-learning agent (`rl/agent.py`) -/

/-- State signatures are flattened position tuples; actions are option keys
(`simulation.py` feeds `option.key` values to the agent). -/
def QState : Type := List Int

instance : DecidableEq QState := by unfold QState; infer_instance

/-- `QLearningAgent`: hyperparameters plus the Q-table.  The
`defaultdict(float)` is embedded as an association list; `q_table[k]` is
first-match lookup defaulting to `0` (the `defaultdict`'s insert-on-read of
a zero is invisible through that lookup), and assignment is a prepend. -/
structure QLearningAgent where
  alpha : ℚ
  gamma : ℚ
  epsilon : ℚ
  min_epsilon : ℚ
  epsilon_decay : ℚ
  q_table : List ((QState × ActionKey) × ℚ)

/-- `self.q_table[(state, action)]` with the `defaultdict(float)` default. -/
def lookupQ : List ((QState × ActionKey) × ℚ) → QState × ActionKey → ℚ
  | [], _ => 0
  | kv :: rest, k => if kv.1 = k then kv.2 else lookupQ rest k

/-- `next_max` in `QLearningAgent.update`: `0.0` if no next actions, else
`max(self.q_table[(next_state, a)] for a in next_actions)`. -/
def nextMax (table : List ((QState × ActionKey) × ℚ)) (next_state : QState) :
    List ActionKey → ℚ
  | [] => 0
  | a :: rest => (rest.map fun b => lookupQ table (next_state, b)).foldl max
      (lookupQ table (next_state, a))

/-- `QLearningAgent.update`. -/
def updateQ (ag : QLearningAgent) (state : QState) (action : ActionKey) (reward : ℚ)
    (next_state : QState) (next_actions : List ActionKey) : QLearningAgent :=
  let next_max := nextMax ag.q_table next_state next_actions
  let old_value := lookupQ ag.q_table (state, action)
  let td_target := reward + ag.gamma * next_max
  { ag with q_table := ((state, action), old_value + ag.alpha * (td_target - old_value)) :: ag.q_table }

/-! ### Construction-time validation (`LudoEnvironment.__post_init__`) -/

/-- The raw (caller-supplied, pre-validation) constructor arguments of
`LudoEnvironment`, all still plain integers. -/
structure LudoConfigIn where
  board_size : Int
  num_players : Int
  num_pawns : Int
  dice_sides : Int
  power_squares : List Int
  power_bonus : Int
  shortcut_squares : List (Int × Int)
  construction_zones : List (Int × Int)
  max_turns : Int
  allow_odd_split : Bool
  enable_capture : Bool
deriving DecidableEq

/-- Python dict assignment `normalized[k] = v`: overwrite an existing key in
place, else append (insertion order preserved). -/
def insertKV (l : List (Int × Int)) (k v : Int) : List (Int × Int) :=
  if (lookupEff l k).isSome then l.map fun p => if p.1 = k then (k, v) else p
  else l ++ [(k, v)]

/-- `LudoEnvironment._normalize_effects` (keys are already integers, so the
`int()` casts never fail): drop zero deltas, reduce the square `% board`,
store the absolute magnitude. -/
def normalizeEffects (raw : List (Int × Int)) (board : Int) : List (Int × Int) :=
  raw.foldl (fun acc kv =>
    if kv.2 = 0 then acc else insertKV acc (kv.1 % board) (kv.2.natAbs : Int)) []

/-- The five validation checks of `__post_init__`, in source order. -/
def postInitChecks (c : LudoConfigIn) : Except String Unit :=
  if c.board_size ≤ 0 then .error "board_size must be positive"
  else if c.num_players < 1 ∨ 4 < c.num_players then .error "num_players must be between 1 and 4"
  else if c.board_size % c.num_players ≠ 0 then .error "board_size must be divisible by num_players"
  else if c.num_pawns ≤ 0 then .error "num_pawns must be positive"
  else if c.dice_sides < 2 then .error "dice_sides must be at least 2"
  else .ok ()

/-- `LudoEnvironment(...)` construction: run the `__post_init__` checks,
normalize the square tables, and `reset`.  The RNG seed is abstracted as the
stream. -/
def mkEnv (c : LudoConfigIn) (stream : Nat → Nat) : Except String Env :=
  match postInitChecks c with
  | .error msg => .error msg
  | .ok _ =>
    .ok (resetE
      { cfg :=
          { board_size := c.board_size.toNat
            num_players := c.num_players.toNat
            num_pawns := c.num_pawns.toNat
            dice_sides := c.dice_sides.toNat
            power_squares := c.power_squares.map fun p => p % c.board_size
            power_bonus := c.power_bonus
            shortcut_squares := normalizeEffects c.shortcut_squares c.board_size
            construction_zones := normalizeEffects c.construction_zones c.board_size
            max_turns := c.max_turns.toNat
            allow_odd_split := c.allow_odd_split
            enable_capture := c.enable_capture }
        rngStream := stream, rngIdx := 0, positions := [], turns := 0,
        current_player := 0, pending_roll := none })

/-! ### State predicates and reachability -/

/-- The conjunction of the five `__post_init__` validation conditions, on a
running environment's configuration. -/
def WFEnv (e : Env) : Prop :=
  0 < e.board_size ∧ 0 < e.num_players ∧ e.num_players ≤ 4 ∧
    e.board_size % e.num_players = 0 ∧ 0 < e.num_pawns ∧ 2 ≤ e.dice_sides

instance (e : Env) : Decidable (WFEnv e) := by unfold WFEnv; infer_instance

/-- The positions grid has `num_players` rows of `num_pawns` entries. -/
def Shape (e : Env) : Prop :=
  e.positions.length = e.num_players ∧
    ∀ pl, pl < e.positions.length → (e.positions.getD pl []).length = e.num_pawns

instance (e : Env) : Decidable (Shape e) := by unfold Shape; infer_instance

/-- Every pawn's progress lies in `[-1, board_size + num_pawns)`. -/
def InBounds (e : Env) : Prop :=
  ∀ pl, pl < e.positions.length → ∀ pw, pw < (e.positions.getD pl []).length →
    -1 ≤ getPos e.positions pl pw ∧
      getPos e.positions pl pw < (e.board_size : Int) + (e.num_pawns : Int)

instance (e : Env) : Decidable (InBounds e) := by unfold InBounds; infer_instance

/-- Pawn `i` of seat `pl` is on the shared lap track (not in base, not in
the finishing lane). -/
def OnLap (e : Env) (pl i : Nat) : Prop :=
  0 ≤ getPos e.positions pl i ∧ getPos e.positions pl i < (e.board_size : Int)

instance (e : Env) (pl i : Nat) : Decidable (OnLap e pl i) := by unfold OnLap; infer_instance

/-- No two pawns of one seat occupy the same non-finishing absolute square. -/
def SameSeatSeparated (e : Env) : Prop :=
  ∀ pl, pl < e.positions.length →
    ∀ i, i < (e.positions.getD pl []).length →
      ∀ j, j < (e.positions.getD pl []).length →
        (i ≠ j ∧ OnLap e pl i ∧ OnLap e pl j) →
          absSquare e pl (getPos e.positions pl i) ≠ absSquare e pl (getPos e.positions pl j)

instance (e : Env) : Decidable (SameSeatSeparated e) := by
  unfold SameSeatSeparated; infer_instance

/-- States reachable from a validly-configured environment by `reset`
followed by `step` calls on options drawn from `available_actions`, where
every option taken satisfies `P`. -/
inductive ReachableVia (P : ActionOption → Prop) : Env → Prop where
  | reset (e : Env) (hwf : WFEnv e) : ReachableVia P (resetE e)
  | step (e : Env) (o : ActionOption) (hr : ReachableVia P e)
      (ho : o ∈ available_actions e) (hp : P o) : ReachableVia P (stepE e o).env

/-- Plain reachability: any option from `available_actions` may be taken. -/
def Reachable (e : Env) : Prop := ReachableVia (fun _ => True) e

/-- Option predicate ruling out split moves. -/
def noSplit (o : ActionOption) : Prop := o.secondary = none

/-- The state `e2` and accumulated captures `caps` produced by the
primary-then-optional-secondary sub-move execution of `step`, starting from
`e1` (the turn-incremented state). -/
def execChain (e1 : Env) (roll : Int) (player : Nat) (o : ActionOption) (e2 : Env)
    (caps : List CaptureEvent) : Prop :=
  (o.secondary = none ∧
    ∃ m, execMove e1 roll player o.primary.toNat o.primary_entry o.primary_steps
      = some (e2, caps, m)) ∨
  (∃ sec eMid caps1 caps2 m1 m2, o.secondary = some sec ∧
    execMove e1 roll player o.primary.toNat o.primary_entry o.primary_steps
      = some (eMid, caps1, m1) ∧
    execMove eMid roll player sec.toNat o.secondary_entry o.secondary_steps
      = some (e2, caps2, m2) ∧
    caps = caps1 ++ caps2)

/-- All fields of the environment except `positions`: `available_actions`
and the movement helpers may touch only `positions`. -/
def SameMeta (e1 e2 : Env) : Prop :=
  e1.cfg = e2.cfg ∧ e1.rngStream = e2.rngStream ∧ e1.rngIdx = e2.rngIdx ∧
    e1.turns = e2.turns ∧ e1.current_player = e2.current_player ∧
    e1.pending_roll = e2.pending_roll

/-! ### Concrete environments for the counterexample and witness theorems

Each is a short legal play from `reset`, with the dice stream chosen to
produce the rolls the play needs (`randint(1, n)` at index `i` is
`1 + stream i % n`). -/

/-- Board 8, 2 seats, 1 pawn each, dice 6, shortcut squares `{2: 2, 4: 1}`:
the configuration under which a pawn is chased from square 2 onto square 4
and (in `environment.py`) rests there. -/
def chaseCfg : GameConfig := ⟨8, 2, 1, 6, [], 1, [(2, 2), (4, 1)], [], 100, false, true⟩

def chaseEnv0 : Env := ⟨chaseCfg, fun i => [5, 0, 1].getD i 0, 0, [], 0, 0, none⟩

def chaseR : Env := resetE chaseEnv0

def chaseE1 : Env := (stepE chaseR (entryOption 0 0)).env

def chaseE2 : Env := (stepE chaseE1 (passOption 1 1)).env

/-- The decisive move of the chase scenario: seat 0 advances its pawn by
the rolled 2 onto shortcut square 2. -/
def chaseRes : StepRes := stepE chaseE2 (singleOption 0 0 2 2)

/-- Board 8, 2 seats, 2 pawns, dice 6, split moves enabled, no special
squares: the configuration under which a split move lands both pawns of
seat 0 on the same square. -/
def collideCfg : GameConfig := ⟨8, 2, 2, 6, [], 1, [], [], 100, true, true⟩

def collideEnv0 : Env := ⟨collideCfg, fun i => [5, 0, 0, 0, 5, 0, 2].getD i 0, 0, [], 0, 0, none⟩

def collideR : Env := resetE collideEnv0

def collideE1 : Env := (stepE collideR (entryOption 0 0)).env

def collideE2 : Env := (stepE collideE1 (passOption 1 1)).env

def collideE3 : Env := (stepE collideE2 (singleOption 0 0 1 1)).env

def collideE4 : Env := (stepE collideE3 (passOption 1 1)).env

def collideE5 : Env := (stepE collideE4 (entryOption 0 1)).env

def collideE6 : Env := (stepE collideE5 (passOption 1 1)).env

/-- The colliding split: pawn 1 (at 0) gets 2 steps, pawn 0 (at 1) gets 1
step — both land on progress 2. -/
def collideRes : StepRes := stepE collideE6 (splitOption 0 3 1 0 2 2 1)

/-- Board 8, 2 seats, 2 pawns, dice 6, power square 1 with a *negative*
power bonus (nothing in `__post_init__` forbids it), split moves enabled,
`max_turns = 9`. -/
def negCfg : GameConfig := ⟨8, 2, 2, 6, [1], -5, [], [], 9, true, true⟩

def negEnv0 : Env :=
  ⟨negCfg, fun i => [5, 0, 0, 0, 5, 0, 2, 0, 5].getD i 0, 0, [], 0, 0, none⟩

def negR : Env := resetE negEnv0

def negE1 : Env := (stepE negR (entryOption 0 0)).env

def negE2 : Env := (stepE negE1 (passOption 1 1)).env

def negE3 : Env := (stepE negE2 (singleOption 0 0 1 1)).env

def negE4 : Env := (stepE negE3 (passOption 1 1)).env

def negE5 : Env := (stepE negE4 (entryOption 0 1)).env

def negE6 : Env := (stepE negE5 (passOption 1 1)).env

/-- The underflowing split: pawn 0 stands on power square 1, so allocating
it 1 of the rolled 3 computes `min(1 + (-5), 7) = -4` steps, and the split
is still enumerated because the other sub-move has positive steps. -/
def negE7 : Env := (stepE negE6 (splitOption 0 3 0 1 1 (-4) 2)).env

def negE8 : Env := (stepE negE7 (passOption 1 1)).env

/-- On the 9th turn (= `max_turns`) seat 0 picks the enumerated base-entry
option for its pawn stranded at progress `-3`; `step` rejects it
(`positions[player][pawn] != -1`) and returns `done = False`. -/
def negRes9 : StepRes := stepE negE8 (entryOption 0 0)

/-- Board 8, 2 seats, 1 pawn, dice with **8** sides; the constant stream
draws `1 + 5 % 8 = 6` on reset, which is not the maximum face. -/
def dice8Cfg : GameConfig := ⟨8, 2, 1, 8, [], 1, [], [], 100, false, true⟩

def dice8Env0 : Env := ⟨dice8Cfg, fun _ => 5, 0, [], 0, 0, none⟩

def dice8R : Env := resetE dice8Env0

/-- Concrete agent for the Q-update witness: `alpha = 0.1`, `gamma = 0.95`,
empty table. -/
def qAg0 : QLearningAgent := ⟨1/10, 95/100, 3/10, 5/100, 99/100, []⟩

/-- Concrete agent with a nonempty prior table (prior estimate 2 for the
updated pair, 4 for the next-state candidate) for the general-law witness. -/
def qAg1 : QLearningAgent := ⟨1/10, 95/100, 3/10, 5/100, 99/100,
  [((([1] : QState), ActionKey.invalid), 4), ((([0] : QState), ActionKey.invalid), 2)]⟩

/-! ## Theorems -/

/-! ### Generic list lemmas for the grid representation -/

theorem getD_set_self {α : Type} (l : List α) (i : Nat) (v d : α) (h : i < l.length) :
    (l.set i v).getD i d = v := by
  rw [List.getD_eq_getElem?_getD, List.getElem?_set_self h]
  rfl

theorem getD_set_ne {α : Type} (l : List α) (i j : Nat) (v d : α) (h : i ≠ j) :
    (l.set i v).getD j d = l.getD j d := by
  rw [List.getD_eq_getElem?_getD, List.getElem?_set_ne h, ← List.getD_eq_getElem?_getD]

theorem map_getD_range {α : Type} (l : List α) (d : α) :
    (List.range l.length).map (fun i => l.getD i d) = l := by
  induction l with
  | nil => rfl
  | cons a t ih =>
    show (List.range (t.length + 1)).map (fun i => (a :: t).getD i d) = a :: t
    rw [List.range_succ_eq_map, List.map_cons, List.map_map]
    exact congrArg (a :: ·) ih

/-! ### C10 — `available_actions` is a pure query -/

/-- C10: `available_actions` leaves the whole environment (positions,
current seat, pending roll, turn counter, RNG stream and index) unchanged,
so repeated calls return the same option list. -/
theorem c10_available_actions_pure (e : Env) :
    (availableActionsSt e).2 = e ∧
      available_actions (availableActionsSt e).2 = available_actions e := by
  have h2 : (availableActionsSt e).2 = e := by
    unfold availableActionsSt
    cases e.pending_roll <;> rfl
  exact ⟨h2, by rw [h2]⟩

/-! ### C5 — invalid `step` calls -/

/-- C5: a `step` whose option names the wrong seat, or issued with no
pending roll, does not raise: it returns the heavy penalty `-5.5`, leaves
every pawn position unchanged, and still increments the turn counter. -/
theorem c5_invalid_step_is_penalized (e : Env) (o : ActionOption)
    (h : e.pending_roll = none ∨ o.player ≠ e.current_player) :
    (stepE e o).env.positions = e.positions ∧ (stepE e o).env.turns = e.turns + 1 ∧
      (stepE e o).reward = -(11/2 : ℚ) ∧ (stepE e o).done = false ∧
      (stepE e o).env.pending_roll = e.pending_roll ∧
      (stepE e o).env.current_player = e.current_player := by
  cases hp : e.pending_roll with
  | none =>
    simp [stepE, hp]
    norm_num
  | some roll =>
    rcases h with h | h
    · exact absurd hp (by simp [h])
    · simp [stepE, hp, h]
      norm_num

/-- Witness for C5 at a concrete input: seat 1's pass option played while
seat 0 is to move. -/
theorem c5_invalid_step_is_penalized_witness :
    ((passOption 1 1).player ≠ chaseR.current_player) ∧
      ((stepE chaseR (passOption 1 1)).env.positions = chaseR.positions ∧
        (stepE chaseR (passOption 1 1)).reward = -(11/2 : ℚ)) :=
  ⟨by decide, by
    have h := c5_invalid_step_is_penalized chaseR (passOption 1 1) (Or.inr (by decide))
    exact ⟨h.1, h.2.2.1⟩⟩

/-! ### C7 — construction-time validation -/

/-- C7: constructing the environment fails exactly on an internally
inconsistent configuration — non-positive board size, seat count outside
1–4, board size not divisible by seat count, non-positive pawn count, or
dice face count below 2 — and succeeds for every other configuration. -/
theorem c7_construction_validation (c : LudoConfigIn) (stream : Nat → Nat) :
    (mkEnv c stream).isOk = true ↔
      (0 < c.board_size ∧ 1 ≤ c.num_players ∧ c.num_players ≤ 4 ∧
        c.board_size % c.num_players = 0 ∧ 0 < c.num_pawns ∧ 2 ≤ c.dice_sides) := by
  unfold mkEnv postInitChecks
  split_ifs with h1 h2 h3 h4 h5 <;>
    simp [Except.isOk, Except.toBool] <;> omega

/-! ### C8 — the Q-learning update law -/

theorem nextMax_zero (t : List ((QState × ActionKey) × ℚ)) (s2 : QState)
    (acts : List ActionKey) (h : ∀ b ∈ acts, lookupQ t (s2, b) = 0) :
    nextMax t s2 acts = 0 := by
  cases acts with
  | nil => rfl
  | cons a rest =>
    have ha : lookupQ t (s2, a) = 0 := h a (by simp)
    have hr : ∀ b ∈ rest, lookupQ t (s2, b) = 0 := fun b hb => h b (by simp [hb])
    show (rest.map fun b => lookupQ t (s2, b)).foldl max (lookupQ t (s2, a)) = 0
    rw [ha]
    clear ha h
    induction rest with
    | nil => rfl
    | cons b bs ih =>
      have hb : lookupQ t (s2, b) = 0 := hr b (by simp)
      rw [List.map_cons, List.foldl_cons, hb, max_self]
      exact ih fun x hx => hr x (by simp [hx])

theorem foldl_max_init_le (l : List ℚ) : ∀ x : ℚ, x ≤ l.foldl max x := by
  induction l with
  | nil => intro x; exact le_refl x
  | cons y t ih =>
    intro x
    show x ≤ t.foldl max (max x y)
    exact le_trans (le_max_left x y) (ih (max x y))

theorem foldl_max_mem_le (l : List ℚ) (y : ℚ) : ∀ x : ℚ, y ∈ l → y ≤ l.foldl max x := by
  induction l with
  | nil => intro x hy; cases hy
  | cons z t ih =>
    intro x hy
    show y ≤ t.foldl max (max x z)
    rcases List.mem_cons.mp hy with rfl | hy2
    · exact le_trans (le_max_right x y) (foldl_max_init_le t (max x y))
    · exact ih (max x z) hy2

theorem foldl_max_attained (l : List ℚ) :
    ∀ x : ℚ, l.foldl max x = x ∨ l.foldl max x ∈ l := by
  induction l with
  | nil => intro x; exact Or.inl rfl
  | cons z t ih =>
    intro x
    show t.foldl max (max x z) = x ∨ t.foldl max (max x z) ∈ z :: t
    rcases ih (max x z) with h | h
    · rcases le_total z x with hzx | hxz
      · left
        rw [h, max_eq_left hzx]
      · right
        rw [h, max_eq_right hxz]
        exact List.mem_cons_self z t
    · right
      exact List.mem_cons_of_mem z h

theorem nextMax_le (t : List ((QState × ActionKey) × ℚ)) (s2 : QState)
    (acts : List ActionKey) : ∀ b ∈ acts, lookupQ t (s2, b) ≤ nextMax t s2 acts := by
  intro b hb
  cases acts with
  | nil => cases hb
  | cons a rest =>
    show lookupQ t (s2, b)
      ≤ (rest.map fun c => lookupQ t (s2, c)).foldl max (lookupQ t (s2, a))
    rcases List.mem_cons.mp hb with rfl | hb2
    · exact foldl_max_init_le _ _
    · exact foldl_max_mem_le _ _ _ (List.mem_map.mpr ⟨b, hb2, rfl⟩)

theorem nextMax_attained (t : List ((QState × ActionKey) × ℚ)) (s2 : QState)
    (acts : List ActionKey) (hne : acts ≠ []) :
    ∃ b ∈ acts, nextMax t s2 acts = lookupQ t (s2, b) := by
  cases acts with
  | nil => exact absurd rfl hne
  | cons a rest =>
    show ∃ b ∈ a :: rest,
      (rest.map fun c => lookupQ t (s2, c)).foldl max (lookupQ t (s2, a))
        = lookupQ t (s2, b)
    rcases foldl_max_attained (rest.map fun c => lookupQ t (s2, c)) (lookupQ t (s2, a))
        with h | h
    · exact ⟨a, List.mem_cons_self a rest, h⟩
    · obtain ⟨b, hb, hbe⟩ := List.mem_map.mp h
      exact ⟨b, List.mem_cons_of_mem a hb, hbe.symm⟩

/-- C8: for **every** prior table, `update` stores exactly
`old + alpha * ((reward + gamma * M) - old)` where `old` is the prior
estimate of `(s, a)` (first-match lookup, default `0` for unseen pairs) and
`M = nextMax` is `0` for an empty candidate list and otherwise a prior
estimate of some `(s2, b)` with `b` among the candidates that bounds all of
them from above (i.e. their maximum); in particular, when every involved
estimate is still unseen the stored value is exactly `alpha * reward`. -/
theorem c8_q_update (ag : QLearningAgent) (s : QState) (a : ActionKey) (r : ℚ)
    (s2 : QState) (acts : List ActionKey) :
    lookupQ (updateQ ag s a r s2 acts).q_table (s, a)
        = lookupQ ag.q_table (s, a)
          + ag.alpha * ((r + ag.gamma * nextMax ag.q_table s2 acts)
              - lookupQ ag.q_table (s, a)) ∧
      nextMax ag.q_table s2 [] = 0 ∧
      (∀ b ∈ acts, lookupQ ag.q_table (s2, b) ≤ nextMax ag.q_table s2 acts) ∧
      (acts ≠ [] →
        ∃ b ∈ acts, nextMax ag.q_table s2 acts = lookupQ ag.q_table (s2, b)) ∧
      ((lookupQ ag.q_table (s, a) = 0 ∧ ∀ b ∈ acts, lookupQ ag.q_table (s2, b) = 0) →
        lookupQ (updateQ ag s a r s2 acts).q_table (s, a) = ag.alpha * r) := by
  have hmain : lookupQ (updateQ ag s a r s2 acts).q_table (s, a)
      = lookupQ ag.q_table (s, a)
        + ag.alpha * ((r + ag.gamma * nextMax ag.q_table s2 acts)
            - lookupQ ag.q_table (s, a)) := by
    show lookupQ (((s, a),
        lookupQ ag.q_table (s, a)
          + ag.alpha * ((r + ag.gamma * nextMax ag.q_table s2 acts)
              - lookupQ ag.q_table (s, a))) :: ag.q_table) (s, a) = _
    rw [lookupQ, if_pos rfl]
  refine ⟨hmain, rfl, nextMax_le ag.q_table s2 acts, nextMax_attained ag.q_table s2 acts, ?_⟩
  rintro ⟨h0, h1⟩
  rw [hmain, h0, nextMax_zero ag.q_table s2 acts h1]
  ring

/-- Witness for C8 at a concrete input: an agent with a **nonempty** prior
table (prior estimate 2 for the updated pair, 4 for the next candidate),
reward 7 — the stored value follows the general law with nonzero `old` and
`M`, and a fresh-table application recovers `alpha * reward` exactly. -/
theorem c8_q_update_witness :
    (lookupQ (updateQ qAg1 ([0] : QState) .invalid 7 ([1] : QState) [.invalid]).q_table
        (([0] : QState), ActionKey.invalid)
      = lookupQ qAg1.q_table (([0] : QState), ActionKey.invalid)
        + qAg1.alpha * ((7 + qAg1.gamma * nextMax qAg1.q_table ([1] : QState) [.invalid])
            - lookupQ qAg1.q_table (([0] : QState), ActionKey.invalid))) ∧
      (∃ b ∈ ([ActionKey.invalid] : List ActionKey),
        nextMax qAg1.q_table ([1] : QState) [.invalid]
          = lookupQ qAg1.q_table (([1] : QState), b)) ∧
      lookupQ (updateQ qAg0 ([0] : QState) .invalid 7 ([1] : QState) [.invalid]).q_table
          (([0] : QState), ActionKey.invalid) = qAg0.alpha * 7 :=
  ⟨(c8_q_update qAg1 ([0] : QState) .invalid 7 ([1] : QState) [.invalid]).1,
    (c8_q_update qAg1 ([0] : QState) .invalid 7 ([1] : QState) [.invalid]).2.2.2.1
      (by simp),
    (c8_q_update qAg0 ([0] : QState) .invalid 7 ([1] : QState) [.invalid]).2.2.2.2
      ⟨by decide, by decide⟩⟩

/-! ### C1 — the special-square chase -/

/-- C1 (code bug, evaluated at the failing input): in the live engine
(`environment.py`) a pawn entering on the rolled 6, passed over to, and then
advanced by 2 from progress 0 lands on shortcut square 2, is moved once to
square 4 — and **rests there although square 4 still has a configured
shortcut delta**, because `_apply_square_effect` applies the effect only
once.  The `MovementHandler` of `movement.py` (which `environment.py` never
calls, and whose docstring states the rule the claim describes) chases the
same move on to square 5, a plain square. -/
theorem c1_pawn_rests_on_special_square :
    entryOption 0 0 ∈ available_actions chaseR ∧
      passOption 1 1 ∈ available_actions chaseE1 ∧
      singleOption 0 0 2 2 ∈ available_actions chaseE2 ∧
      getPos chaseRes.env.positions 0 0 = 4 ∧
      lookupEff chaseRes.env.shortcut_squares (absSquare chaseRes.env 0 4) = some 1 ∧
      isSpecialSquareB chaseRes.env 0 4 = true ∧
      (advancePawnM chaseE2 0 0 2).1.positions = [[5], [-1]] ∧
      isSpecialSquareB (advancePawnM chaseE2 0 0 2).1 0 5 = false := by
  decide

/-! ### C4 — an option always exists in non-terminal states -/

/-- C4: `available_actions` is empty exactly in terminal states (pending
roll cleared); with a pending roll, if no entry/single/split option was
produced the result is exactly the synthesized pass option. -/
theorem c4_always_an_option (e : Env) :
    (available_actions e = [] ↔ e.pending_roll = none) ∧
      (∀ roll, e.pending_roll = some roll →
        (singleOptions e e.current_player roll (unfinishedIdx e e.current_player) ++
            splitOptions e e.current_player roll
              ((unfinishedIdx e e.current_player).filter fun pawn =>
                decide (0 ≤ getPos e.positions e.current_player pawn)) = [] →
          available_actions e = [passOption e.current_player roll])) := by
  constructor
  · cases hp : e.pending_roll with
    | none => simp [available_actions, availableActionsSt, hp]
    | some roll =>
      simp only [available_actions, availableActionsSt, hp]
      constructor
      · intro h
        exfalso
        split_ifs at h with hie
        all_goals first
          | exact List.cons_ne_nil _ _ h
          | exact hie (by simp [h])
      · intro h; cases h
  · intro roll hp hempty
    simp [available_actions, availableActionsSt, hp, hempty]

/-- Witness for C4 at a concrete input: seat 1, roll 1, both pawns still in
base, so nothing is legal and the pass option is synthesized. -/
theorem c4_always_an_option_witness :
    collideE1.pending_roll = some 1 ∧
      available_actions collideE1 = [passOption collideE1.current_player 1] :=
  ⟨by decide, (c4_always_an_option collideE1).2 1 (by decide) (by decide)⟩

/-! ### Inversion of `available_actions` membership -/

theorem mem_singleOptions {e : Env} {player : Nat} {roll : Int} {unf : List Nat}
    {o : ActionOption} (h : o ∈ singleOptions e player roll unf) :
    ∃ pawn ∈ unf, buildSingleOption e player pawn roll = some o := by
  simpa [singleOptions] using List.mem_filterMap.mp h

theorem buildSingleOption_inv {e : Env} {player pawn : Nat} {roll : Int} {o : ActionOption}
    (h : buildSingleOption e player pawn roll = some o) :
    (getPos e.positions player pawn < 0 ∧ roll = 6 ∧ canEnterBase e player = true ∧
        o = entryOption player pawn) ∨
      (∃ steps, 0 ≤ getPos e.positions player pawn ∧
        calcSteps e player pawn roll = some steps ∧ 0 < steps ∧
        canLandWithoutFriend e player pawn steps none = true ∧
        o = singleOption player pawn roll steps) := by
  unfold buildSingleOption at h
  by_cases hpos : getPos e.positions player pawn < 0
  · rw [if_pos hpos] at h
    by_cases hc : roll ≠ 6 ∨ ¬ canEnterBase e player
    · rw [if_pos hc] at h; cases h
    · rw [if_neg hc] at h
      push_neg at hc
      exact Or.inl ⟨hpos, hc.1, by simpa using hc.2, (Option.some.inj h).symm⟩
  · rw [if_neg hpos] at h
    rcases hcs : calcSteps e player pawn roll with _ | steps <;> rw [hcs] at h
    · exact Option.noConfusion h
    · replace h : (if steps ≤ 0 then none
          else if ¬ canLandWithoutFriend e player pawn steps none then none
          else some (singleOption player pawn roll steps)) = some o := h
      by_cases hsteps : steps ≤ 0
      · rw [if_pos hsteps] at h; cases h
      · rw [if_neg hsteps] at h
        by_cases hland : ¬ canLandWithoutFriend e player pawn steps none
        · rw [if_pos hland] at h; cases h
        · rw [if_neg hland] at h
          exact Or.inr ⟨steps, by omega, rfl, by omega, by simpa using hland,
            (Option.some.inj h).symm⟩

theorem mem_splitOptions {e : Env} {player : Nat} {roll : Int} {movable : List Nat}
    {o : ActionOption} (h : o ∈ splitOptions e player roll movable) :
    e.allow_odd_split = true ∧ roll % 2 = 1 ∧ 2 ≤ movable.length ∧ 1 < roll ∧
      ∃ p s alloc sp ss, p ∈ movable ∧ s ∈ movable ∧ p ≠ s ∧
        alloc ∈ allocRange roll ∧
        calcSteps e player p alloc = some sp ∧
        calcSteps e player s (roll - alloc) = some ss ∧
        ¬(sp ≤ 0 ∧ ss ≤ 0) ∧
        canLandWithoutFriend e player p sp none = true ∧
        canLandWithoutFriend e player s ss (some p) = true ∧
        o = splitOption player roll p s alloc sp ss := by
  unfold splitOptions at h
  by_cases hcond : e.allow_odd_split = true ∧ roll % 2 = 1 ∧ 2 ≤ movable.length ∧ 1 < roll
  swap
  · rw [if_neg hcond] at h; cases h
  · rw [if_pos hcond] at h
    obtain ⟨hsplit, hodd, hlen, hroll⟩ := hcond
    refine ⟨hsplit, hodd, hlen, hroll, ?_⟩
    rw [List.mem_flatMap] at h
    obtain ⟨p, hp, h⟩ := h
    rw [List.mem_flatMap] at h
    obtain ⟨s, hs, h⟩ := h
    by_cases hps : p = s
    · rw [if_pos hps] at h; cases h
    · rw [if_neg hps] at h
      rw [List.mem_filterMap] at h
      obtain ⟨alloc, halloc, h⟩ := h
      rcases hcs1 : calcSteps e player p alloc with _ | sp <;> rw [hcs1] at h
      · exact Option.noConfusion h
      rcases hcs2 : calcSteps e player s (roll - alloc) with _ | ss <;> rw [hcs2] at h
      · exact Option.noConfusion h
      replace h : (if sp ≤ 0 ∧ ss ≤ 0 then none
          else if ¬ canLandWithoutFriend e player p sp none then none
          else if ¬ canLandWithoutFriend e player s ss (some p) then none
          else some (splitOption player roll p s alloc sp ss)) = some o := h
      by_cases hzero : sp ≤ 0 ∧ ss ≤ 0
      · rw [if_pos hzero] at h; cases h
      · rw [if_neg hzero] at h
        by_cases hland1 : ¬ canLandWithoutFriend e player p sp none
        · rw [if_pos hland1] at h; cases h
        · rw [if_neg hland1] at h
          by_cases hland2 : ¬ canLandWithoutFriend e player s ss (some p)
          · rw [if_pos hland2] at h; cases h
          · rw [if_neg hland2] at h
            exact ⟨p, s, alloc, sp, ss, hp, hs, hps, halloc, hcs1, hcs2, hzero,
              by simpa using hland1, by simpa using hland2, (Option.some.inj h).symm⟩

theorem available_actions_eq_of_none {e : Env} (hp : e.pending_roll = none) :
    available_actions e = [] := by
  unfold available_actions availableActionsSt
  rw [hp]

theorem available_actions_eq_of_some {e : Env} {roll : Int} (hp : e.pending_roll = some roll) :
    available_actions e =
      if (singleOptions e e.current_player roll (unfinishedIdx e e.current_player) ++
          splitOptions e e.current_player roll
            ((unfinishedIdx e e.current_player).filter fun pawn =>
              decide (0 ≤ getPos e.positions e.current_player pawn))).isEmpty then
        [passOption e.current_player roll]
      else
        singleOptions e e.current_player roll (unfinishedIdx e e.current_player) ++
          splitOptions e e.current_player roll
            ((unfinishedIdx e e.current_player).filter fun pawn =>
              decide (0 ≤ getPos e.positions e.current_player pawn)) := by
  unfold available_actions availableActionsSt
  rw [hp]

/-- Any member of `available_actions` is the pass option, a single/entry
option built by `_build_single_option`, or a split option. -/
theorem mem_available_actions {e : Env} {o : ActionOption}
    (h : o ∈ available_actions e) :
    ∃ roll, e.pending_roll = some roll ∧
      (o = passOption e.current_player roll ∨
        o ∈ singleOptions e e.current_player roll (unfinishedIdx e e.current_player) ∨
        o ∈ splitOptions e e.current_player roll
          ((unfinishedIdx e e.current_player).filter fun pawn =>
            decide (0 ≤ getPos e.positions e.current_player pawn))) := by
  rcases hp : e.pending_roll with _ | roll
  · rw [available_actions_eq_of_none hp] at h; cases h
  · rw [available_actions_eq_of_some hp] at h
    refine ⟨roll, rfl, ?_⟩
    by_cases hie : (singleOptions e e.current_player roll (unfinishedIdx e e.current_player) ++
        splitOptions e e.current_player roll
          ((unfinishedIdx e e.current_player).filter fun pawn =>
            decide (0 ≤ getPos e.positions e.current_player pawn))).isEmpty = true
    · rw [if_pos hie] at h
      exact Or.inl (List.mem_singleton.mp h)
    · rw [if_neg hie] at h
      rcases List.mem_append.mp h with h | h
      · exact Or.inr (Or.inl h)
      · exact Or.inr (Or.inr h)

theorem mem_unfinishedIdx {e : Env} {player pawn : Nat}
    (h : pawn ∈ unfinishedIdx e player) :
    pawn < (e.positions.getD player []).length ∧
      getPos e.positions player pawn < (e.board_size : Int) := by
  unfold unfinishedIdx at h
  obtain ⟨hr, hd⟩ := List.mem_filter.mp h
  exact ⟨List.mem_range.mp hr, by simpa [getPos] using hd⟩

theorem unfinishedIdx_mem {e : Env} {player pawn : Nat}
    (h1 : pawn < (e.positions.getD player []).length)
    (h2 : getPos e.positions player pawn < (e.board_size : Int)) :
    pawn ∈ unfinishedIdx e player := by
  unfold unfinishedIdx
  exact List.mem_filter.mpr ⟨List.mem_range.mpr h1, by simpa [getPos] using h2⟩

/-! ### C3 — base entry is gated on the literal 6, not the maximum face -/

/-- C3 (counterexample): with 8-sided dice the reset roll is 6 — not the
maximum face 8 — yet `available_actions` still offers the base-entry
option. -/
theorem c3_counterexample :
    dice8R.cfg.dice_sides = 8 ∧ dice8R.pending_roll = some 6 ∧ (6 : Int) ≠ 8 ∧
      getPos dice8R.positions 0 0 = -1 ∧
      entryOption 0 0 ∈ available_actions dice8R := by
  decide

/-- C3 (amended): for every configuration and every in-base pawn of the
seat to move, `available_actions` contains the base-entry option for that
pawn exactly when the pending roll equals the **literal constant 6** (which
coincides with the maximum die face only when `dice_sides = 6`) and
`canEnterBase` holds; on any other roll value no base-entry option for it
exists. -/
theorem c3_entry_iff_roll_six (e : Env) (roll : Int) (pawn : Nat)
    (hroll : e.pending_roll = some roll) (hb : 0 < e.board_size)
    (hpawn : pawn < (e.positions.getD e.current_player []).length)
    (hbase : getPos e.positions e.current_player pawn = -1) :
    entryOption e.current_player pawn ∈ available_actions e ↔
      (roll = 6 ∧ canEnterBase e e.current_player = true) := by
  constructor
  · intro h
    obtain ⟨roll2, hroll2, hcase⟩ := mem_available_actions h
    rw [hroll] at hroll2
    cases hroll2
    rcases hcase with h | h | h
    · exact absurd (congrArg ActionOption.key h) (by simp [entryOption, passOption])
    · obtain ⟨pawn2, _, hbs⟩ := mem_singleOptions h
      rcases buildSingleOption_inv hbs with ⟨_, h6, hce, heq⟩ | ⟨steps, _, _, _, _, heq⟩
      · exact ⟨h6, hce⟩
      · exact absurd (congrArg ActionOption.key heq)
          (by simp [entryOption, singleOption])
    · obtain ⟨_, _, _, _, p, s, alloc, sp, ss, _, _, _, _, _, _, _, _, _, heq⟩ :=
        mem_splitOptions h
      exact absurd (congrArg ActionOption.secondary heq)
        (by simp [entryOption, splitOption])
  · rintro ⟨h6, hce⟩
    subst h6
    have hbuild : buildSingleOption e e.current_player pawn 6
        = some (entryOption e.current_player pawn) := by
      unfold buildSingleOption
      rw [if_pos (by omega : getPos e.positions e.current_player pawn < 0),
        if_neg (by simp [hce])]
    have hmem : entryOption e.current_player pawn
        ∈ singleOptions e e.current_player 6 (unfinishedIdx e e.current_player) :=
      List.mem_filterMap.mpr ⟨pawn, unfinishedIdx_mem hpawn (by omega), hbuild⟩
    rw [available_actions_eq_of_some hroll]
    have hne : (singleOptions e e.current_player 6 (unfinishedIdx e e.current_player) ++
        splitOptions e e.current_player 6
          ((unfinishedIdx e e.current_player).filter fun pawn =>
            decide (0 ≤ getPos e.positions e.current_player pawn))).isEmpty = false := by
      rcases hx : (singleOptions e e.current_player 6 (unfinishedIdx e e.current_player) ++
          splitOptions e e.current_player 6
            ((unfinishedIdx e e.current_player).filter fun pawn =>
              decide (0 ≤ getPos e.positions e.current_player pawn))).isEmpty with _ | _
      · rfl
      · rw [List.isEmpty_iff] at hx
        rw [List.append_eq_nil] at hx
        rw [hx.1] at hmem
        cases hmem
    rw [hne]
    simp only [Bool.false_eq_true, if_false]
    exact List.mem_append.mpr (Or.inl hmem)

/-- Witness for the amended C3 at a concrete input: the chase scenario's
reset state (dice 6, roll 6, pawn 0 in base, start square free). -/
theorem c3_entry_iff_roll_six_witness :
    chaseR.pending_roll = some 6 ∧
      (entryOption chaseR.current_player 0 ∈ available_actions chaseR ↔
        ((6 : Int) = 6 ∧ canEnterBase chaseR chaseR.current_player = true)) :=
  ⟨by decide, c3_entry_iff_roll_six chaseR 6 0 (by decide) (by decide) (by decide) (by decide)⟩

/-! ### Grid lemmas -/

theorem getD_map_range {α : Type} (n : Nat) (f : Nat → α) (i : Nat) (d : α) (h : i < n) :
    ((List.range n).map f).getD i d = f i := by
  rw [List.getD_eq_getElem?_getD, List.getElem?_map, List.getElem?_range h]
  rfl

theorem getD_replicate {α : Type} (n i : Nat) (a d : α) (h : i < n) :
    (List.replicate n a).getD i d = a := by
  induction n generalizing i with
  | zero => omega
  | succ m ih =>
    cases i with
    | zero => rfl
    | succ k =>
      show (List.replicate m a).getD k d = a
      exact ih k (by omega)

theorem getPos_oob {ps : List (List Int)} {pl pw : Nat}
    (h : ¬(pl < ps.length ∧ pw < (ps.getD pl []).length)) : getPos ps pl pw = -1 := by
  unfold getPos
  by_cases h1 : pl < ps.length
  · exact List.getD_eq_default _ _ (by omega)
  · rw [List.getD_eq_default ps [] (by omega)]
    rfl

theorem inRange_of_getPos_nonneg {ps : List (List Int)} {pl pw : Nat}
    (h : 0 ≤ getPos ps pl pw) : pl < ps.length ∧ pw < (ps.getD pl []).length := by
  by_contra hc
  rw [getPos_oob hc] at h
  omega

theorem setPos_length (ps : List (List Int)) (pl pw : Nat) (v : Int) :
    (setPos ps pl pw v).length = ps.length := List.length_set _ _ _

theorem setPos_row_self (ps : List (List Int)) (pl pw : Nat) (v : Int) (h : pl < ps.length) :
    (setPos ps pl pw v).getD pl [] = (ps.getD pl []).set pw v :=
  getD_set_self _ _ _ _ h

theorem setPos_row_ne (ps : List (List Int)) (pl pw : Nat) (v : Int) (op : Nat) (h : op ≠ pl) :
    (setPos ps pl pw v).getD op [] = ps.getD op [] :=
  getD_set_ne _ _ _ _ _ (Ne.symm h)

theorem setPos_row_length (ps : List (List Int)) (pl pw : Nat) (v : Int) (op : Nat) :
    ((setPos ps pl pw v).getD op []).length = (ps.getD op []).length := by
  by_cases h : op = pl
  · subst h
    by_cases h2 : op < ps.length
    · rw [setPos_row_self _ _ _ _ h2, List.length_set]
    · rw [List.getD_eq_default _ _ (show ps.length ≤ op by omega),
        List.getD_eq_default _ _ (show (setPos ps op pw v).length ≤ op by
          rw [setPos_length]; omega)]
  · rw [setPos_row_ne _ _ _ _ _ h]

theorem getPos_setPos_self (ps : List (List Int)) (pl pw : Nat) (v : Int)
    (h1 : pl < ps.length) (h2 : pw < (ps.getD pl []).length) :
    getPos (setPos ps pl pw v) pl pw = v := by
  unfold getPos
  rw [setPos_row_self _ _ _ _ h1, getD_set_self _ _ _ _ h2]

theorem getPos_setPos_ne (ps : List (List Int)) (pl pw : Nat) (v : Int) (op qw : Nat)
    (h : op ≠ pl ∨ qw ≠ pw) :
    getPos (setPos ps pl pw v) op qw = getPos ps op qw := by
  unfold getPos
  rcases h with h | h
  · rw [setPos_row_ne _ _ _ _ _ h]
  · by_cases hop : op = pl
    · subst hop
      by_cases hl : op < ps.length
      · rw [setPos_row_self _ _ _ _ hl, getD_set_ne _ _ _ _ _ (Ne.symm h)]
      · rw [List.getD_eq_default ps [] (by omega),
          List.getD_eq_default (setPos ps op pw v) [] (by rw [setPos_length]; omega)]
    · rw [setPos_row_ne _ _ _ _ _ hop]

/-! ### Congruence under configuration-preserving updates -/

theorem absSquare_congr {e1 e2 : Env} (h : e1.cfg = e2.cfg) (pl : Nat) (p : Int) :
    absSquare e1 pl p = absSquare e2 pl p := by
  unfold absSquare finishSquare startOffset Env.board_size Env.num_players Env.num_pawns
  rw [h]

theorem playerFinishedB_congr {e1 e2 : Env} (hc : e1.cfg = e2.cfg)
    (hp : e1.positions = e2.positions) (pl : Nat) :
    playerFinishedB e1 pl = playerFinishedB e2 pl := by
  unfold playerFinishedB Env.board_size
  rw [hc, hp]

theorem otherWinnerB_congr {e1 e2 : Env} (hc : e1.cfg = e2.cfg)
    (hp : e1.positions = e2.positions) :
    otherWinnerB e1 = otherWinnerB e2 := by
  unfold otherWinnerB playerFinishedB Env.board_size Env.num_players
  rw [hc, hp]

theorem sameMeta_refl (e : Env) : SameMeta e e := ⟨rfl, rfl, rfl, rfl, rfl, rfl⟩

theorem sameMeta_positions (e : Env) (ps : List (List Int)) :
    SameMeta ({ e with positions := ps }) e := ⟨rfl, rfl, rfl, rfl, rfl, rfl⟩

theorem sameMeta_trans {e1 e2 e3 : Env} (h1 : SameMeta e1 e2) (h2 : SameMeta e2 e3) :
    SameMeta e1 e3 := by
  obtain ⟨a1, b1, c1, d1, f1, g1⟩ := h1
  obtain ⟨a2, b2, c2, d2, f2, g2⟩ := h2
  exact ⟨a1.trans a2, b1.trans b2, c1.trans c2, d1.trans d2, f1.trans f2, g1.trans g2⟩

/-! ### Transfer of the invariants along pointwise grid relations -/

theorem inbounds_transfer {e1 e2 : Env} (hc : e2.cfg = e1.cfg)
    (hlen : e2.positions.length = e1.positions.length)
    (hrow : ∀ op, (e2.positions.getD op []).length = (e1.positions.getD op []).length)
    (hval : ∀ op qw, getPos e2.positions op qw = getPos e1.positions op qw ∨
      getPos e2.positions op qw = -1)
    (hin : InBounds e1) : InBounds e2 := by
  intro pl hpl pw hpw
  have hb : (e2.board_size : Int) = (e1.board_size : Int) := by
    unfold Env.board_size; rw [hc]
  have hn : (e2.num_pawns : Int) = (e1.num_pawns : Int) := by
    unfold Env.num_pawns; rw [hc]
  rcases hval pl pw with h | h
  · rw [h, hb, hn]
    exact hin pl (by omega) pw (by rw [← hrow]; exact hpw)
  · rw [h]
    constructor
    · omega
    · have : (0 : Int) ≤ (e2.board_size : Int) + (e2.num_pawns : Int) := by positivity
      omega

theorem separated_transfer {e1 e2 : Env} (hc : e2.cfg = e1.cfg)
    (hlen : e2.positions.length = e1.positions.length)
    (hrow : ∀ op, (e2.positions.getD op []).length = (e1.positions.getD op []).length)
    (hval : ∀ op qw, getPos e2.positions op qw = getPos e1.positions op qw ∨
      getPos e2.positions op qw = -1)
    (hsep : SameSeatSeparated e1) : SameSeatSeparated e2 := by
  intro pl hpl i hi j hj hcond
  obtain ⟨hij, hoi, hoj⟩ := hcond
  have hb : (e2.board_size : Int) = (e1.board_size : Int) := by
    unfold Env.board_size; rw [hc]
  have hvi : getPos e2.positions pl i = getPos e1.positions pl i := by
    rcases hval pl i with h | h
    · exact h
    · exfalso; have := hoi.1; omega
  have hvj : getPos e2.positions pl j = getPos e1.positions pl j := by
    rcases hval pl j with h | h
    · exact h
    · exfalso; have := hoj.1; omega
  rw [hvi, hvj, absSquare_congr hc, absSquare_congr hc]
  exact hsep pl (by omega) i (by rw [← hrow]; exact hi) j (by rw [← hrow]; exact hj)
    ⟨hij, ⟨by rw [← hvi]; exact hoi.1, by rw [← hvi, ← hb]; exact hoi.2⟩,
      ⟨by rw [← hvj]; exact hoj.1, by rw [← hvj, ← hb]; exact hoj.2⟩⟩

/-! ### `_resolve_captures` lemmas -/

theorem capHit_self_false (e : Env) (pl : Nat) (sq : Int) (x : Int) :
    ¬ capHit e pl sq pl x := fun h => h.1 rfl

theorem resolveCaptures_disabled {e : Env} {pl pw : Nat} (h : e.enable_capture = false) :
    resolveCaptures e pl pw = (e, []) := by
  simp [resolveCaptures, h]

theorem resolveCaptures_out {e : Env} {pl pw : Nat}
    (h : getPos e.positions pl pw < 0 ∨ (e.board_size : Int) ≤ getPos e.positions pl pw) :
    resolveCaptures e pl pw = (e, []) := by
  unfold resolveCaptures
  by_cases h1 : e.enable_capture = false
  · rw [if_pos h1]
  · rw [if_neg h1, if_pos h]

theorem resolveCaptures_active_positions {e : Env} {pl pw : Nat}
    (h1 : ¬ e.enable_capture = false)
    (h2 : ¬(getPos e.positions pl pw < 0 ∨ (e.board_size : Int) ≤ getPos e.positions pl pw)) :
    (resolveCaptures e pl pw).1.positions =
      (List.range e.positions.length).map fun op =>
        (List.range (e.positions.getD op []).length).map fun qw =>
          if capHit e pl (absSquare e pl (getPos e.positions pl pw)) op ((e.positions.getD op []).getD qw (-1)) then -1
          else (e.positions.getD op []).getD qw (-1) := by
  unfold resolveCaptures
  rw [if_neg h1, if_neg h2]

theorem resolveCaptures_active_events {e : Env} {pl pw : Nat}
    (h1 : ¬ e.enable_capture = false)
    (h2 : ¬(getPos e.positions pl pw < 0 ∨ (e.board_size : Int) ≤ getPos e.positions pl pw)) :
    (resolveCaptures e pl pw).2 =
      (List.range e.positions.length).flatMap fun op =>
        (List.range (e.positions.getD op []).length).filterMap fun qw =>
          if capHit e pl (absSquare e pl (getPos e.positions pl pw)) op ((e.positions.getD op []).getD qw (-1)) then some ⟨op, qw⟩ else none := by
  unfold resolveCaptures
  rw [if_neg h1, if_neg h2]

theorem resolveCaptures_meta (e : Env) (pl pw : Nat) :
    SameMeta (resolveCaptures e pl pw).1 e := by
  by_cases h1 : e.enable_capture = false
  · rw [resolveCaptures_disabled h1]; exact sameMeta_refl e
  by_cases h2 : getPos e.positions pl pw < 0 ∨ (e.board_size : Int) ≤ getPos e.positions pl pw
  · rw [resolveCaptures_out h2]; exact sameMeta_refl e
  · unfold resolveCaptures
    rw [if_neg h1, if_neg h2]
    exact sameMeta_positions e _

theorem resolveCaptures_length (e : Env) (pl pw : Nat) :
    (resolveCaptures e pl pw).1.positions.length = e.positions.length := by
  by_cases h1 : e.enable_capture = false
  · rw [resolveCaptures_disabled h1]
  by_cases h2 : getPos e.positions pl pw < 0 ∨ (e.board_size : Int) ≤ getPos e.positions pl pw
  · rw [resolveCaptures_out h2]
  · rw [resolveCaptures_active_positions h1 h2, List.length_map, List.length_range]

theorem resolveCaptures_row_length (e : Env) (pl pw : Nat) (op : Nat) :
    ((resolveCaptures e pl pw).1.positions.getD op []).length
      = (e.positions.getD op []).length := by
  by_cases h1 : e.enable_capture = false
  · rw [resolveCaptures_disabled h1]
  by_cases h2 : getPos e.positions pl pw < 0 ∨ (e.board_size : Int) ≤ getPos e.positions pl pw
  · rw [resolveCaptures_out h2]
  · rw [resolveCaptures_active_positions h1 h2]
    by_cases hop : op < e.positions.length
    · rw [getD_map_range _ _ _ _ hop, List.length_map, List.length_range]
    · rw [List.getD_eq_default _ _ (show ((List.range e.positions.length).map _).length ≤ op by rw [List.length_map, List.length_range]; omega),
        List.getD_eq_default _ _ (show e.positions.length ≤ op by omega)]

theorem resolveCaptures_row_acting (e : Env) (pl pw : Nat) :
    (resolveCaptures e pl pw).1.positions.getD pl [] = e.positions.getD pl [] := by
  by_cases h1 : e.enable_capture = false
  · rw [resolveCaptures_disabled h1]
  by_cases h2 : getPos e.positions pl pw < 0 ∨ (e.board_size : Int) ≤ getPos e.positions pl pw
  · rw [resolveCaptures_out h2]
  · rw [resolveCaptures_active_positions h1 h2]
    by_cases hop : pl < e.positions.length
    · rw [getD_map_range _ _ _ _ hop]
      have hcg : ∀ qw ∈ List.range (e.positions.getD pl []).length,
          (if capHit e pl (absSquare e pl (getPos e.positions pl pw)) pl ((e.positions.getD pl []).getD qw (-1)) then -1
            else (e.positions.getD pl []).getD qw (-1))
            = (e.positions.getD pl []).getD qw (-1) := by
        intro qw _
        rw [if_neg (capHit_self_false e pl _ _)]
      rw [List.map_congr_left hcg, map_getD_range]
    · rw [List.getD_eq_default _ _ (show ((List.range e.positions.length).map _).length ≤ pl by rw [List.length_map, List.length_range]; omega),
        List.getD_eq_default _ _ (show e.positions.length ≤ pl by omega)]

theorem resolveCaptures_entry_cases (e : Env) (pl pw : Nat) (op qw : Nat) :
    getPos (resolveCaptures e pl pw).1.positions op qw = getPos e.positions op qw ∨
      (op ≠ pl ∧ getPos (resolveCaptures e pl pw).1.positions op qw = -1) := by
  by_cases h1 : e.enable_capture = false
  · rw [resolveCaptures_disabled h1]; exact Or.inl rfl
  by_cases h2 : getPos e.positions pl pw < 0 ∨ (e.board_size : Int) ≤ getPos e.positions pl pw
  · rw [resolveCaptures_out h2]; exact Or.inl rfl
  · unfold getPos
    rw [resolveCaptures_active_positions h1 h2]
    by_cases hop : op < e.positions.length
    · rw [getD_map_range _ _ _ _ hop]
      by_cases hqw : qw < (e.positions.getD op []).length
      · rw [getD_map_range _ _ _ _ hqw]
        by_cases hhit : capHit e pl (absSquare e pl (getPos e.positions pl pw)) op ((e.positions.getD op []).getD qw (-1))
        · refine Or.inr ⟨hhit.1, ?_⟩
          rw [if_pos hhit]
        · rw [if_neg hhit]
          exact Or.inl rfl
      · refine Or.inl ?_
        rw [List.getD_eq_default _ _ (show ((List.range (e.positions.getD op []).length).map _).length ≤ qw by rw [List.length_map, List.length_range]; omega),
          List.getD_eq_default _ _ (show (e.positions.getD op []).length ≤ qw by omega)]
    · refine Or.inl ?_
      rw [List.getD_eq_default _ _ (show ((List.range e.positions.length).map _).length ≤ op by rw [List.length_map, List.length_range]; omega),
        List.getD_eq_default _ _ (show e.positions.length ≤ op by omega)]

theorem resolveCaptures_events_ne (e : Env) (pl pw : Nat) :
    ∀ ev ∈ (resolveCaptures e pl pw).2, ev.player ≠ pl := by
  by_cases h1 : e.enable_capture = false
  · rw [resolveCaptures_disabled h1]; intro ev hev; cases hev
  by_cases h2 : getPos e.positions pl pw < 0 ∨ (e.board_size : Int) ≤ getPos e.positions pl pw
  · rw [resolveCaptures_out h2]; intro ev hev; cases hev
  · rw [resolveCaptures_active_events h1 h2]
    intro ev hev
    rw [List.mem_flatMap] at hev
    obtain ⟨op, _, hev⟩ := hev
    rw [List.mem_filterMap] at hev
    obtain ⟨qw, _, hev⟩ := hev
    by_cases hhit : capHit e pl (absSquare e pl (getPos e.positions pl pw)) op ((e.positions.getD op []).getD qw (-1))
    · rw [if_pos hhit] at hev
      cases hev
      exact hhit.1
    · rw [if_neg hhit] at hev
      cases hev

theorem resolveCaptures_pointwise (e : Env) (pl pw : Nat) (op qw : Nat) :
    getPos (resolveCaptures e pl pw).1.positions op qw = getPos e.positions op qw ∨
      getPos (resolveCaptures e pl pw).1.positions op qw = -1 := by
  rcases resolveCaptures_entry_cases e pl pw op qw with h | h
  · exact Or.inl h
  · exact Or.inr h.2

theorem resolveCaptures_inbounds (e : Env) (pl pw : Nat) (hin : InBounds e) :
    InBounds (resolveCaptures e pl pw).1 :=
  inbounds_transfer (resolveCaptures_meta e pl pw).1 (resolveCaptures_length e pl pw)
    (resolveCaptures_row_length e pl pw) (resolveCaptures_pointwise e pl pw) hin

theorem resolveCaptures_separated (e : Env) (pl pw : Nat) (hsep : SameSeatSeparated e) :
    SameSeatSeparated (resolveCaptures e pl pw).1 :=
  separated_transfer (resolveCaptures_meta e pl pw).1 (resolveCaptures_length e pl pw)
    (resolveCaptures_row_length e pl pw) (resolveCaptures_pointwise e pl pw) hsep

/-! ### Query-helper elimination lemmas -/

theorem hasFriendly_false_elim {e : Env} {pl : Nat} {sq : Int} {excl : List Nat}
    (h : hasFriendlyOnSquare e pl sq excl = false) :
    ∀ i, i < (e.positions.getD pl []).length → i ∉ excl →
      0 ≤ getPos e.positions pl i → getPos e.positions pl i < (e.board_size : Int) →
        absSquare e pl (getPos e.positions pl i) ≠ sq := by
  intro i hi hex h0 hb heq
  unfold hasFriendlyOnSquare at h
  rw [List.any_eq_false] at h
  have hni := h i (List.mem_range.mpr hi)
  simp only [decide_eq_true_eq] at hni
  exact hni ⟨hex, by simpa [getPos] using h0, by simpa [getPos] using hb,
    by simpa [getPos] using heq⟩

theorem canEnterBase_elim {e : Env} {pl : Nat} (h : canEnterBase e pl = true) :
    hasFriendlyOnSquare e pl (startSquare e pl) [] = false := by
  unfold canEnterBase at h
  rcases hx : hasFriendlyOnSquare e pl (startSquare e pl) [] with _ | _
  · rfl
  · rw [hx] at h; cases h

theorem canLand_elim {e : Env} {pl pw : Nat} {steps : Int} {exclude : Option Nat}
    (h : canLandWithoutFriend e pl pw steps exclude = true)
    (h0 : ¬ getPos e.positions pl pw < 0)
    (hb : ¬ (e.board_size : Int) ≤ getPos e.positions pl pw + steps) :
    hasFriendlyOnSquare e pl (absSquare e pl (getPos e.positions pl pw + steps))
      (pw :: exclude.toList) = false := by
  unfold canLandWithoutFriend at h
  rw [if_neg h0, if_neg hb] at h
  rcases hx : hasFriendlyOnSquare e pl (absSquare e pl (getPos e.positions pl pw + steps))
      (pw :: exclude.toList) with _ | _
  · rfl
  · rw [hx] at h; cases h

theorem getD_mem {l : List Int} {i : Nat} (h : i < l.length) : l.getD i (-1) ∈ l := by
  rw [List.getD_eq_getElem?_getD, List.getElem?_eq_getElem h]
  exact List.getElem_mem h

theorem countP_lt_length {l : List Int} {p : Int → Bool} {x : Int}
    (hx : x ∈ l) (hpx : ¬ p x = true) : l.countP p < l.length := by
  have hle : l.countP p ≤ l.length := List.countP_le_length p
  have hne : ¬ (l.countP p = l.length) := by
    rw [List.countP_eq_length]
    intro hall
    exact hpx (hall x hx)
  omega

theorem nextFinishSlot_lt (e : Env) (pl pw : Nat)
    (h0 : 0 ≤ getPos e.positions pl pw)
    (hlt : getPos e.positions pl pw < (e.board_size : Int)) :
    nextFinishSlot e pl < ((e.positions.getD pl []).length : Int) := by
  obtain ⟨hpl, hpw⟩ := inRange_of_getPos_nonneg h0
  have hmem : (e.positions.getD pl []).getD pw (-1) ∈ e.positions.getD pl [] := getD_mem hpw
  have hclt : (e.positions.getD pl []).countP
      (fun progress => decide ((e.board_size : Int) ≤ progress))
      < (e.positions.getD pl []).length := by
    refine countP_lt_length hmem ?_
    rw [decide_eq_true_eq]
    unfold getPos at hlt
    omega
  unfold nextFinishSlot
  omega

/-! ### Invariant preservation under a single `setPos` -/

theorem updPositions_cfg (e : Env) (ps : List (List Int)) :
    ({ e with positions := ps } : Env).cfg = e.cfg := rfl

theorem updPositions_positions (e : Env) (ps : List (List Int)) :
    ({ e with positions := ps } : Env).positions = ps := rfl

theorem updPositions_boardSize (e : Env) (ps : List (List Int)) :
    ({ e with positions := ps } : Env).board_size = e.board_size := rfl

theorem updPositions_numPawns (e : Env) (ps : List (List Int)) :
    ({ e with positions := ps } : Env).num_pawns = e.num_pawns := rfl

theorem onLap_updPositions {e : Env} {ps : List (List Int)} {pl i : Nat} :
    OnLap { e with positions := ps } pl i ↔
      (0 ≤ getPos ps pl i ∧ getPos ps pl i < (e.board_size : Int)) := Iff.rfl

theorem inbounds_setPos (e : Env) (pl pw : Nat) (v : Int) (hin : InBounds e)
    (hlb : -1 ≤ v) (hub : v < (e.board_size : Int) + (e.num_pawns : Int)) :
    InBounds { e with positions := setPos e.positions pl pw v } := by
  intro op hop qw hqw
  simp only [updPositions_positions, updPositions_boardSize, updPositions_numPawns] at *
  have hop2 : op < e.positions.length := by
    rw [← setPos_length e.positions pl pw v]; exact hop
  have hqw2 : qw < (e.positions.getD op []).length := by
    rw [← setPos_row_length e.positions pl pw v op]; exact hqw
  by_cases hsame : op = pl ∧ qw = pw
  · obtain ⟨h1, h2⟩ := hsame
    subst h1; subst h2
    rw [getPos_setPos_self _ _ _ _ hop2 hqw2]
    exact ⟨hlb, hub⟩
  · rw [getPos_setPos_ne _ _ _ _ _ _ (by tauto)]
    exact hin op hop2 qw hqw2

theorem separated_setPos_off (e : Env) (pl pw : Nat) (v : Int)
    (hsep : SameSeatSeparated e) (hv : v < 0 ∨ (e.board_size : Int) ≤ v) :
    SameSeatSeparated { e with positions := setPos e.positions pl pw v } := by
  intro op hop i hi j hj hcond
  obtain ⟨hij, hoi, hoj⟩ := hcond
  rw [onLap_updPositions] at hoi hoj
  simp only [updPositions_positions] at hop hi hj ⊢
  simp only [absSquare_congr (updPositions_cfg e (setPos e.positions pl pw v))]
  have hop2 : op < e.positions.length := by
    rw [← setPos_length e.positions pl pw v]; exact hop
  have hi2 : i < (e.positions.getD op []).length := by
    rw [← setPos_row_length e.positions pl pw v op]; exact hi
  have hj2 : j < (e.positions.getD op []).length := by
    rw [← setPos_row_length e.positions pl pw v op]; exact hj
  have hvi : getPos (setPos e.positions pl pw v) op i = getPos e.positions op i := by
    by_cases hsame : op = pl ∧ i = pw
    · obtain ⟨h1, h2⟩ := hsame
      subst h1; subst h2
      rw [getPos_setPos_self _ _ _ _ hop2 hi2] at hoi
      exfalso; rcases hv with hv | hv <;> omega
    · exact getPos_setPos_ne _ _ _ _ _ _ (by tauto)
  have hvj : getPos (setPos e.positions pl pw v) op j = getPos e.positions op j := by
    by_cases hsame : op = pl ∧ j = pw
    · obtain ⟨h1, h2⟩ := hsame
      subst h1; subst h2
      rw [getPos_setPos_self _ _ _ _ hop2 hj2] at hoj
      exfalso; rcases hv with hv | hv <;> omega
    · exact getPos_setPos_ne _ _ _ _ _ _ (by tauto)
  rw [hvi] at hoi ⊢
  rw [hvj] at hoj ⊢
  exact hsep op hop2 i hi2 j hj2 ⟨hij, hoi, hoj⟩

theorem separated_setPos_free (e : Env) (pl pw : Nat) (v : Int)
    (hsep : SameSeatSeparated e)
    (hfree : hasFriendlyOnSquare e pl (absSquare e pl v) [pw] = false) :
    SameSeatSeparated { e with positions := setPos e.positions pl pw v } := by
  intro op hop i hi j hj hcond
  obtain ⟨hij, hoi, hoj⟩ := hcond
  rw [onLap_updPositions] at hoi hoj
  simp only [updPositions_positions] at hop hi hj ⊢
  simp only [absSquare_congr (updPositions_cfg e (setPos e.positions pl pw v))]
  have hop2 : op < e.positions.length := by
    rw [← setPos_length e.positions pl pw v]; exact hop
  have hi2 : i < (e.positions.getD op []).length := by
    rw [← setPos_row_length e.positions pl pw v op]; exact hi
  have hj2 : j < (e.positions.getD op []).length := by
    rw [← setPos_row_length e.positions pl pw v op]; exact hj
  by_cases hsi : op = pl ∧ i = pw
  · obtain ⟨h1, h2⟩ := hsi
    subst h1; subst h2
    have hjne : getPos (setPos e.positions op i v) op j = getPos e.positions op j :=
      getPos_setPos_ne _ _ _ _ _ _ (Or.inr (Ne.symm hij))
    rw [getPos_setPos_self _ _ _ _ hop2 hi2, hjne]
    rw [hjne] at hoj
    intro heq
    exact hasFriendly_false_elim hfree j hj2 (by simp [Ne.symm hij]) hoj.1 hoj.2 heq.symm
  · have hine : getPos (setPos e.positions pl pw v) op i = getPos e.positions op i :=
      getPos_setPos_ne _ _ _ _ _ _ (by tauto)
    rw [hine]
    rw [hine] at hoi
    by_cases hsj : op = pl ∧ j = pw
    · obtain ⟨h1, h2⟩ := hsj
      subst h1; subst h2
      rw [getPos_setPos_self _ _ _ _ hop2 hj2]
      intro heq
      exact hasFriendly_false_elim hfree i hi2 (by simp [hij]) hoi.1 hoi.2 heq
    · have hjne : getPos (setPos e.positions pl pw v) op j = getPos e.positions op j :=
        getPos_setPos_ne _ _ _ _ _ _ (by tauto)
      rw [hjne]
      rw [hjne] at hoj
      exact hsep op hop2 i hi2 j hj2 ⟨hij, hoi, hoj⟩

/-! ### Shape transfer -/

theorem shape_transfer {e1 e2 : Env} (hc : e2.cfg = e1.cfg)
    (hlen : e2.positions.length = e1.positions.length)
    (hrow : ∀ op, (e2.positions.getD op []).length = (e1.positions.getD op []).length)
    (hs : Shape e1) : Shape e2 := by
  constructor
  · rw [hlen]
    show e1.positions.length = e2.num_players
    unfold Env.num_players
    rw [hc]
    exact hs.1
  · intro pl hpl
    rw [hrow pl]
    show (e1.positions.getD pl []).length = e2.num_pawns
    unfold Env.num_pawns
    rw [hc]
    exact hs.2 pl (by omega)

theorem shape_setPos (e : Env) (pl pw : Nat) (v : Int) (hs : Shape e) :
    Shape { e with positions := setPos e.positions pl pw v } :=
  shape_transfer (updPositions_cfg e _)
    (by rw [updPositions_positions]; exact setPos_length _ _ _ _)
    (fun op => by rw [updPositions_positions]; exact setPos_row_length _ _ _ _ _) hs

theorem resolveCaptures_shape (e : Env) (pl pw : Nat) (hs : Shape e) :
    Shape (resolveCaptures e pl pw).1 :=
  shape_transfer (resolveCaptures_meta e pl pw).1 (resolveCaptures_length e pl pw)
    (resolveCaptures_row_length e pl pw) hs

/-! ### `_apply_square_effect` lemmas -/

theorem applySquareEffect_out {e : Env} {pl pw : Nat}
    (h : getPos e.positions pl pw < 0 ∨ (e.board_size : Int) ≤ getPos e.positions pl pw) :
    applySquareEffect e pl pw = (e, []) := by
  unfold applySquareEffect
  rw [if_pos h]

theorem applySquareEffect_zero {e : Env} {pl pw : Nat}
    (h1 : ¬(getPos e.positions pl pw < 0 ∨ (e.board_size : Int) ≤ getPos e.positions pl pw))
    (h2 : effectDelta e (absSquare e pl (getPos e.positions pl pw)) = 0) :
    applySquareEffect e pl pw = (e, []) := by
  unfold applySquareEffect
  rw [if_neg h1, if_pos h2]

theorem applySquareEffect_under {e : Env} {pl pw : Nat}
    (h1 : ¬(getPos e.positions pl pw < 0 ∨ (e.board_size : Int) ≤ getPos e.positions pl pw))
    (h2 : ¬ effectDelta e (absSquare e pl (getPos e.positions pl pw)) = 0)
    (h3 : getPos e.positions pl pw
      + effectDelta e (absSquare e pl (getPos e.positions pl pw)) < 0) :
    applySquareEffect e pl pw
      = ({ e with positions := setPos e.positions pl pw (-1) }, []) := by
  unfold applySquareEffect
  rw [if_neg h1, if_neg h2, if_pos h3]

theorem applySquareEffect_finish {e : Env} {pl pw : Nat}
    (h1 : ¬(getPos e.positions pl pw < 0 ∨ (e.board_size : Int) ≤ getPos e.positions pl pw))
    (h2 : ¬ effectDelta e (absSquare e pl (getPos e.positions pl pw)) = 0)
    (h3 : ¬ getPos e.positions pl pw
      + effectDelta e (absSquare e pl (getPos e.positions pl pw)) < 0)
    (h4 : (e.board_size : Int) ≤ getPos e.positions pl pw
      + effectDelta e (absSquare e pl (getPos e.positions pl pw))) :
    applySquareEffect e pl pw
      = ({ e with positions := (setPos e.positions pl pw
          ((e.board_size : Int) + nextFinishSlot e pl)) }, []) := by
  unfold applySquareEffect
  rw [if_neg h1, if_neg h2, if_neg h3, if_pos h4]

theorem applySquareEffect_blocked {e : Env} {pl pw : Nat}
    (h1 : ¬(getPos e.positions pl pw < 0 ∨ (e.board_size : Int) ≤ getPos e.positions pl pw))
    (h2 : ¬ effectDelta e (absSquare e pl (getPos e.positions pl pw)) = 0)
    (h3 : ¬ getPos e.positions pl pw
      + effectDelta e (absSquare e pl (getPos e.positions pl pw)) < 0)
    (h4 : ¬ (e.board_size : Int) ≤ getPos e.positions pl pw
      + effectDelta e (absSquare e pl (getPos e.positions pl pw)))
    (h5 : hasFriendlyOnSquare e pl
      (absSquare e pl (getPos e.positions pl pw
        + effectDelta e (absSquare e pl (getPos e.positions pl pw)))) [pw] = true) :
    applySquareEffect e pl pw = (e, []) := by
  unfold applySquareEffect
  rw [if_neg h1, if_neg h2, if_neg h3, if_neg h4, if_pos h5]

theorem applySquareEffect_move {e : Env} {pl pw : Nat}
    (h1 : ¬(getPos e.positions pl pw < 0 ∨ (e.board_size : Int) ≤ getPos e.positions pl pw))
    (h2 : ¬ effectDelta e (absSquare e pl (getPos e.positions pl pw)) = 0)
    (h3 : ¬ getPos e.positions pl pw
      + effectDelta e (absSquare e pl (getPos e.positions pl pw)) < 0)
    (h4 : ¬ (e.board_size : Int) ≤ getPos e.positions pl pw
      + effectDelta e (absSquare e pl (getPos e.positions pl pw)))
    (h5 : ¬ hasFriendlyOnSquare e pl
      (absSquare e pl (getPos e.positions pl pw
        + effectDelta e (absSquare e pl (getPos e.positions pl pw)))) [pw] = true) :
    applySquareEffect e pl pw
      = resolveCaptures
          { e with positions := (setPos e.positions pl pw
              (getPos e.positions pl pw
                + effectDelta e (absSquare e pl (getPos e.positions pl pw)))) }
          pl pw := by
  unfold applySquareEffect
  rw [if_neg h1, if_neg h2, if_neg h3, if_neg h4, if_neg h5]

theorem applySquareEffect_meta (e : Env) (pl pw : Nat) :
    SameMeta (applySquareEffect e pl pw).1 e := by
  by_cases h1 : getPos e.positions pl pw < 0 ∨ (e.board_size : Int) ≤ getPos e.positions pl pw
  · rw [applySquareEffect_out h1]; exact sameMeta_refl e
  by_cases h2 : effectDelta e (absSquare e pl (getPos e.positions pl pw)) = 0
  · rw [applySquareEffect_zero h1 h2]; exact sameMeta_refl e
  by_cases h3 : getPos e.positions pl pw
      + effectDelta e (absSquare e pl (getPos e.positions pl pw)) < 0
  · rw [applySquareEffect_under h1 h2 h3]; exact sameMeta_positions e _
  by_cases h4 : (e.board_size : Int) ≤ getPos e.positions pl pw
      + effectDelta e (absSquare e pl (getPos e.positions pl pw))
  · rw [applySquareEffect_finish h1 h2 h3 h4]; exact sameMeta_positions e _
  by_cases h5 : hasFriendlyOnSquare e pl
      (absSquare e pl (getPos e.positions pl pw
        + effectDelta e (absSquare e pl (getPos e.positions pl pw)))) [pw] = true
  · rw [applySquareEffect_blocked h1 h2 h3 h4 h5]; exact sameMeta_refl e
  · rw [applySquareEffect_move h1 h2 h3 h4 h5]
    exact sameMeta_trans (resolveCaptures_meta _ pl pw) (sameMeta_positions e _)

theorem applySquareEffect_shape (e : Env) (pl pw : Nat) (hs : Shape e) :
    Shape (applySquareEffect e pl pw).1 := by
  by_cases h1 : getPos e.positions pl pw < 0 ∨ (e.board_size : Int) ≤ getPos e.positions pl pw
  · rw [applySquareEffect_out h1]; exact hs
  by_cases h2 : effectDelta e (absSquare e pl (getPos e.positions pl pw)) = 0
  · rw [applySquareEffect_zero h1 h2]; exact hs
  by_cases h3 : getPos e.positions pl pw
      + effectDelta e (absSquare e pl (getPos e.positions pl pw)) < 0
  · rw [applySquareEffect_under h1 h2 h3]; exact shape_setPos e pl pw _ hs
  by_cases h4 : (e.board_size : Int) ≤ getPos e.positions pl pw
      + effectDelta e (absSquare e pl (getPos e.positions pl pw))
  · rw [applySquareEffect_finish h1 h2 h3 h4]; exact shape_setPos e pl pw _ hs
  by_cases h5 : hasFriendlyOnSquare e pl
      (absSquare e pl (getPos e.positions pl pw
        + effectDelta e (absSquare e pl (getPos e.positions pl pw)))) [pw] = true
  · rw [applySquareEffect_blocked h1 h2 h3 h4 h5]; exact hs
  · rw [applySquareEffect_move h1 h2 h3 h4 h5]
    exact resolveCaptures_shape _ pl pw (shape_setPos e pl pw _ hs)

theorem applySquareEffect_inbounds (e : Env) (pl pw : Nat) (hs : Shape e)
    (hin : InBounds e) : InBounds (applySquareEffect e pl pw).1 := by
  by_cases h1 : getPos e.positions pl pw < 0 ∨ (e.board_size : Int) ≤ getPos e.positions pl pw
  · rw [applySquareEffect_out h1]; exact hin
  by_cases h2 : effectDelta e (absSquare e pl (getPos e.positions pl pw)) = 0
  · rw [applySquareEffect_zero h1 h2]; exact hin
  push_neg at h1
  by_cases h3 : getPos e.positions pl pw
      + effectDelta e (absSquare e pl (getPos e.positions pl pw)) < 0
  · rw [applySquareEffect_under (by omega) h2 h3]
    exact inbounds_setPos e pl pw _ hin (by omega) (by omega)
  by_cases h4 : (e.board_size : Int) ≤ getPos e.positions pl pw
      + effectDelta e (absSquare e pl (getPos e.positions pl pw))
  · rw [applySquareEffect_finish (by omega) h2 h3 h4]
    have hslot := nextFinishSlot_lt e pl pw (by omega) (by omega)
    have hpl : pl < e.positions.length :=
      (inRange_of_getPos_nonneg (show (0 : Int) ≤ getPos e.positions pl pw by omega)).1
    have hrow : (e.positions.getD pl []).length = e.num_pawns := hs.2 pl hpl
    refine inbounds_setPos e pl pw _ hin ?_ ?_
    · have : (0 : Int) ≤ nextFinishSlot e pl := by unfold nextFinishSlot; positivity
      omega
    · rw [hrow] at hslot
      omega
  by_cases h5 : hasFriendlyOnSquare e pl
      (absSquare e pl (getPos e.positions pl pw
        + effectDelta e (absSquare e pl (getPos e.positions pl pw)))) [pw] = true
  · rw [applySquareEffect_blocked (by omega) h2 h3 h4 h5]; exact hin
  · rw [applySquareEffect_move (by omega) h2 h3 h4 h5]
    refine resolveCaptures_inbounds _ pl pw ?_
    refine inbounds_setPos e pl pw _ hin (by omega) ?_
    have : (0 : Int) ≤ (e.num_pawns : Int) := by positivity
    omega

theorem applySquareEffect_separated (e : Env) (pl pw : Nat)
    (hsep : SameSeatSeparated e) : SameSeatSeparated (applySquareEffect e pl pw).1 := by
  by_cases h1 : getPos e.positions pl pw < 0 ∨ (e.board_size : Int) ≤ getPos e.positions pl pw
  · rw [applySquareEffect_out h1]; exact hsep
  by_cases h2 : effectDelta e (absSquare e pl (getPos e.positions pl pw)) = 0
  · rw [applySquareEffect_zero h1 h2]; exact hsep
  push_neg at h1
  by_cases h3 : getPos e.positions pl pw
      + effectDelta e (absSquare e pl (getPos e.positions pl pw)) < 0
  · rw [applySquareEffect_under (by omega) h2 h3]
    exact separated_setPos_off e pl pw _ hsep (Or.inl (by omega))
  by_cases h4 : (e.board_size : Int) ≤ getPos e.positions pl pw
      + effectDelta e (absSquare e pl (getPos e.positions pl pw))
  · rw [applySquareEffect_finish (by omega) h2 h3 h4]
    refine separated_setPos_off e pl pw _ hsep (Or.inr ?_)
    have : (0 : Int) ≤ nextFinishSlot e pl := by unfold nextFinishSlot; positivity
    omega
  by_cases h5 : hasFriendlyOnSquare e pl
      (absSquare e pl (getPos e.positions pl pw
        + effectDelta e (absSquare e pl (getPos e.positions pl pw)))) [pw] = true
  · rw [applySquareEffect_blocked (by omega) h2 h3 h4 h5]; exact hsep
  · rw [applySquareEffect_move (by omega) h2 h3 h4 h5]
    refine resolveCaptures_separated _ pl pw ?_
    refine separated_setPos_free e pl pw _ hsep ?_
    rcases hx : hasFriendlyOnSquare e pl
        (absSquare e pl (getPos e.positions pl pw
          + effectDelta e (absSquare e pl (getPos e.positions pl pw)))) [pw] with _ | _
    · rfl
    · exact absurd hx h5

theorem applySquareEffect_events_ne (e : Env) (pl pw : Nat) :
    ∀ ev ∈ (applySquareEffect e pl pw).2, ev.player ≠ pl := by
  by_cases h1 : getPos e.positions pl pw < 0 ∨ (e.board_size : Int) ≤ getPos e.positions pl pw
  · rw [applySquareEffect_out h1]; intro ev hev; cases hev
  by_cases h2 : effectDelta e (absSquare e pl (getPos e.positions pl pw)) = 0
  · rw [applySquareEffect_zero h1 h2]; intro ev hev; cases hev
  by_cases h3 : getPos e.positions pl pw
      + effectDelta e (absSquare e pl (getPos e.positions pl pw)) < 0
  · rw [applySquareEffect_under h1 h2 h3]; intro ev hev; cases hev
  by_cases h4 : (e.board_size : Int) ≤ getPos e.positions pl pw
      + effectDelta e (absSquare e pl (getPos e.positions pl pw))
  · rw [applySquareEffect_finish h1 h2 h3 h4]; intro ev hev; cases hev
  by_cases h5 : hasFriendlyOnSquare e pl
      (absSquare e pl (getPos e.positions pl pw
        + effectDelta e (absSquare e pl (getPos e.positions pl pw)))) [pw] = true
  · rw [applySquareEffect_blocked h1 h2 h3 h4 h5]; intro ev hev; cases hev
  · rw [applySquareEffect_move h1 h2 h3 h4 h5]
    exact resolveCaptures_events_ne _ pl pw

theorem resolveCaptures_acting_other (e : Env) (pl pw qw : Nat) :
    getPos (resolveCaptures e pl pw).1.positions pl qw = getPos e.positions pl qw := by
  unfold getPos
  rw [resolveCaptures_row_acting]

theorem applySquareEffect_acting_other (e : Env) (pl pw qw : Nat) (hqw : qw ≠ pw) :
    getPos (applySquareEffect e pl pw).1.positions pl qw = getPos e.positions pl qw := by
  by_cases h1 : getPos e.positions pl pw < 0 ∨ (e.board_size : Int) ≤ getPos e.positions pl pw
  · rw [applySquareEffect_out h1]
  by_cases h2 : effectDelta e (absSquare e pl (getPos e.positions pl pw)) = 0
  · rw [applySquareEffect_zero h1 h2]
  by_cases h3 : getPos e.positions pl pw
      + effectDelta e (absSquare e pl (getPos e.positions pl pw)) < 0
  · rw [applySquareEffect_under h1 h2 h3]
    simp only [updPositions_positions]
    exact getPos_setPos_ne _ _ _ _ _ _ (Or.inr hqw)
  by_cases h4 : (e.board_size : Int) ≤ getPos e.positions pl pw
      + effectDelta e (absSquare e pl (getPos e.positions pl pw))
  · rw [applySquareEffect_finish h1 h2 h3 h4]
    simp only [updPositions_positions]
    exact getPos_setPos_ne _ _ _ _ _ _ (Or.inr hqw)
  by_cases h5 : hasFriendlyOnSquare e pl
      (absSquare e pl (getPos e.positions pl pw
        + effectDelta e (absSquare e pl (getPos e.positions pl pw)))) [pw] = true
  · rw [applySquareEffect_blocked h1 h2 h3 h4 h5]
  · rw [applySquareEffect_move h1 h2 h3 h4 h5]
    rw [resolveCaptures_acting_other]
    simp only [updPositions_positions]
    exact getPos_setPos_ne _ _ _ _ _ _ (Or.inr hqw)

/-! ### `_advance_pawn` lemmas -/

theorem advancePawn_neg {e : Env} {pl pw : Nat} {steps : Int}
    (h : getPos e.positions pl pw < 0) :
    advancePawn e pl pw steps = (e, []) := by
  unfold advancePawn
  rw [if_pos h]

theorem advancePawn_finish {e : Env} {pl pw : Nat} {steps : Int}
    (h1 : ¬ getPos e.positions pl pw < 0)
    (h2 : (e.board_size : Int) ≤ getPos e.positions pl pw + steps) :
    advancePawn e pl pw steps
      = ({ e with positions := (setPos e.positions pl pw
          ((e.board_size : Int) + nextFinishSlot e pl)) }, []) := by
  unfold advancePawn
  rw [if_neg h1, if_pos h2]

theorem advancePawn_move {e : Env} {pl pw : Nat} {steps : Int}
    (h1 : ¬ getPos e.positions pl pw < 0)
    (h2 : ¬ (e.board_size : Int) ≤ getPos e.positions pl pw + steps) :
    advancePawn e pl pw steps =
      ((applySquareEffect (resolveCaptures
          { e with positions := (setPos e.positions pl pw
            (getPos e.positions pl pw + steps)) } pl pw).1 pl pw).1,
        (resolveCaptures
          { e with positions := (setPos e.positions pl pw
            (getPos e.positions pl pw + steps)) } pl pw).2 ++
          (applySquareEffect (resolveCaptures
            { e with positions := (setPos e.positions pl pw
              (getPos e.positions pl pw + steps)) } pl pw).1 pl pw).2) := by
  unfold advancePawn
  rw [if_neg h1, if_neg h2]

theorem advancePawn_meta (e : Env) (pl pw : Nat) (steps : Int) :
    SameMeta (advancePawn e pl pw steps).1 e := by
  by_cases h1 : getPos e.positions pl pw < 0
  · rw [advancePawn_neg h1]; exact sameMeta_refl e
  by_cases h2 : (e.board_size : Int) ≤ getPos e.positions pl pw + steps
  · rw [advancePawn_finish h1 h2]; exact sameMeta_positions e _
  · rw [advancePawn_move h1 h2]
    exact sameMeta_trans (applySquareEffect_meta _ pl pw)
      (sameMeta_trans (resolveCaptures_meta _ pl pw) (sameMeta_positions e _))

theorem advancePawn_shape (e : Env) (pl pw : Nat) (steps : Int) (hs : Shape e) :
    Shape (advancePawn e pl pw steps).1 := by
  by_cases h1 : getPos e.positions pl pw < 0
  · rw [advancePawn_neg h1]; exact hs
  by_cases h2 : (e.board_size : Int) ≤ getPos e.positions pl pw + steps
  · rw [advancePawn_finish h1 h2]; exact shape_setPos e pl pw _ hs
  · rw [advancePawn_move h1 h2]
    exact applySquareEffect_shape _ pl pw
      (resolveCaptures_shape _ pl pw (shape_setPos e pl pw _ hs))

theorem advancePawn_inbounds (e : Env) (pl pw : Nat) (steps : Int) (hs : Shape e)
    (hin : InBounds e) (hlt : getPos e.positions pl pw < (e.board_size : Int))
    (hst : 0 ≤ steps) : InBounds (advancePawn e pl pw steps).1 := by
  by_cases h1 : getPos e.positions pl pw < 0
  · rw [advancePawn_neg h1]; exact hin
  by_cases h2 : (e.board_size : Int) ≤ getPos e.positions pl pw + steps
  · rw [advancePawn_finish h1 h2]
    have hslot := nextFinishSlot_lt e pl pw (by omega) hlt
    have hpl : pl < e.positions.length :=
      (inRange_of_getPos_nonneg (show (0 : Int) ≤ getPos e.positions pl pw by omega)).1
    have hrow : (e.positions.getD pl []).length = e.num_pawns := hs.2 pl hpl
    refine inbounds_setPos e pl pw _ hin ?_ ?_
    · have : (0 : Int) ≤ nextFinishSlot e pl := by unfold nextFinishSlot; positivity
      omega
    · rw [hrow] at hslot
      omega
  · rw [advancePawn_move h1 h2]
    refine applySquareEffect_inbounds _ pl pw
      (resolveCaptures_shape _ pl pw (shape_setPos e pl pw _ hs))
      (resolveCaptures_inbounds _ pl pw ?_)
    refine inbounds_setPos e pl pw _ hin (by omega) ?_
    have : (0 : Int) ≤ (e.num_pawns : Int) := by positivity
    omega

theorem advancePawn_separated (e : Env) (pl pw : Nat) (steps : Int)
    (hsep : SameSeatSeparated e)
    (hland : canLandWithoutFriend e pl pw steps none = true) :
    SameSeatSeparated (advancePawn e pl pw steps).1 := by
  by_cases h1 : getPos e.positions pl pw < 0
  · rw [advancePawn_neg h1]; exact hsep
  by_cases h2 : (e.board_size : Int) ≤ getPos e.positions pl pw + steps
  · rw [advancePawn_finish h1 h2]
    refine separated_setPos_off e pl pw _ hsep (Or.inr ?_)
    have : (0 : Int) ≤ nextFinishSlot e pl := by unfold nextFinishSlot; positivity
    omega
  · rw [advancePawn_move h1 h2]
    refine applySquareEffect_separated _ pl pw (resolveCaptures_separated _ pl pw ?_)
    refine separated_setPos_free e pl pw _ hsep ?_
    have := canLand_elim hland h1 h2
    simpa using this

theorem advancePawn_events_ne (e : Env) (pl pw : Nat) (steps : Int) :
    ∀ ev ∈ (advancePawn e pl pw steps).2, ev.player ≠ pl := by
  by_cases h1 : getPos e.positions pl pw < 0
  · rw [advancePawn_neg h1]; intro ev hev; cases hev
  by_cases h2 : (e.board_size : Int) ≤ getPos e.positions pl pw + steps
  · rw [advancePawn_finish h1 h2]; intro ev hev; cases hev
  · rw [advancePawn_move h1 h2]
    intro ev hev
    rcases List.mem_append.mp hev with hev | hev
    · exact resolveCaptures_events_ne _ pl pw ev hev
    · exact applySquareEffect_events_ne _ pl pw ev hev

theorem advancePawn_acting_other (e : Env) (pl pw qw : Nat) (steps : Int) (hqw : qw ≠ pw) :
    getPos (advancePawn e pl pw steps).1.positions pl qw = getPos e.positions pl qw := by
  by_cases h1 : getPos e.positions pl pw < 0
  · rw [advancePawn_neg h1]
  by_cases h2 : (e.board_size : Int) ≤ getPos e.positions pl pw + steps
  · rw [advancePawn_finish h1 h2]
    simp only [updPositions_positions]
    exact getPos_setPos_ne _ _ _ _ _ _ (Or.inr hqw)
  · rw [advancePawn_move h1 h2]
    rw [applySquareEffect_acting_other _ pl pw qw hqw, resolveCaptures_acting_other]
    simp only [updPositions_positions]
    exact getPos_setPos_ne _ _ _ _ _ _ (Or.inr hqw)

/-! ### Equations for the building blocks of `step` -/

theorem updTurns_positions (e : Env) (t : Nat) :
    ({ e with turns := t } : Env).positions = e.positions := rfl

theorem updTurns_cfg (e : Env) (t : Nat) :
    ({ e with turns := t } : Env).cfg = e.cfg := rfl

theorem updTurns_current (e : Env) (t : Nat) :
    ({ e with turns := t } : Env).current_player = e.current_player := rfl

theorem updTurns_numPawns (e : Env) (t : Nat) :
    ({ e with turns := t } : Env).num_pawns = e.num_pawns := rfl

theorem updTurns_turns (e : Env) (t : Nat) :
    ({ e with turns := t } : Env).turns = t := rfl

theorem row_lt_num_pawns {e : Env} (hs : Shape e) {pl pw : Nat}
    (h : pw < (e.positions.getD pl []).length) : pw < e.num_pawns := by
  by_cases hpl : pl < e.positions.length
  · rw [hs.2 pl hpl] at h; exact h
  · rw [List.getD_eq_default _ _ (by omega)] at h
    simp at h

theorem getPos_neg_eq_neg_one {e : Env} (hin : InBounds e) {pl pw : Nat}
    (h : getPos e.positions pl pw < 0) : getPos e.positions pl pw = -1 := by
  by_cases hr : pl < e.positions.length ∧ pw < (e.positions.getD pl []).length
  · have := hin pl hr.1 pw hr.2; omega
  · exact getPos_oob hr

theorem execMove_nonentry (e : Env) (roll : Int) (pl pw : Nat) (steps : Int) :
    execMove e roll pl pw false steps
      = some ((advancePawn e pl pw steps).1, (advancePawn e pl pw steps).2, steps) := rfl

theorem execMove_entry_ok {e : Env} {roll : Int} {pl pw : Nat} (steps : Int)
    (h6 : roll = 6) (hbase : getPos e.positions pl pw = -1)
    (hce : canEnterBase e pl = true) :
    execMove e roll pl pw true steps
      = some ((applySquareEffect
            (resolveCaptures { e with positions := (setPos e.positions pl pw 0) } pl pw).1
            pl pw).1,
          (resolveCaptures { e with positions := (setPos e.positions pl pw 0) } pl pw).2
            ++ (applySquareEffect
              (resolveCaptures { e with positions := (setPos e.positions pl pw 0) } pl pw).1
              pl pw).2, 0) := by
  unfold execMove
  rw [if_pos rfl, if_neg (by rw [h6, hbase]; simp), if_neg (by simp [hce])]

theorem stepTail_env (roll : Int) (o : ActionOption) (pb : List Int)
    (bP bS tot sP sS : Int) (e2 : Env) (caps : List CaptureEvent) :
    (stepTail roll o pb bP bS tot sP sS e2 caps).env = advanceTurn e2 (stepDoneFlag e2) := by
  unfold stepTail stepDoneFlag
  by_cases hpzd : playerFinishedB e2 0 = true <;> by_cases how : otherWinnerB e2 = true <;>
    by_cases hmax : e2.max_turns ≤ e2.turns <;>
    simp [hpzd, how, hmax]

theorem stepTail_done (roll : Int) (o : ActionOption) (pb : List Int)
    (bP bS tot sP sS : Int) (e2 : Env) (caps : List CaptureEvent) :
    (stepTail roll o pb bP bS tot sP sS e2 caps).done = stepDoneFlag e2 := by
  unfold stepTail stepDoneFlag
  by_cases hpzd : playerFinishedB e2 0 = true <;> by_cases how : otherWinnerB e2 = true <;>
    by_cases hmax : e2.max_turns ≤ e2.turns <;>
    simp [hpzd, how, hmax]

theorem stepTail_captures (roll : Int) (o : ActionOption) (pb : List Int)
    (bP bS tot sP sS : Int) (e2 : Env) (caps : List CaptureEvent) :
    (stepTail roll o pb bP bS tot sP sS e2 caps).info.captures = caps := rfl

theorem advanceTurn_true (e : Env) : advanceTurn e true = { e with pending_roll := none } := rfl

theorem advanceTurn_false (e : Env) :
    advanceTurn e false = { e with
      current_player := (e.current_player + 1) % e.num_players,
      pending_roll := some (drawRoll e), rngIdx := e.rngIdx + 1 } := rfl

theorem advanceTurn_positions (e : Env) (d : Bool) :
    (advanceTurn e d).positions = e.positions := by cases d <;> rfl

theorem advanceTurn_cfg (e : Env) (d : Bool) :
    (advanceTurn e d).cfg = e.cfg := by cases d <;> rfl

theorem advanceTurn_turns (e : Env) (d : Bool) :
    (advanceTurn e d).turns = e.turns := by cases d <;> rfl

theorem advanceTurn_pending_true (e : Env) : (advanceTurn e true).pending_roll = none := rfl

theorem advanceTurn_pending_false (e : Env) :
    (advanceTurn e false).pending_roll = some (drawRoll e) := rfl

theorem advanceTurn_current_false (e : Env) :
    (advanceTurn e false).current_player = (e.current_player + 1) % e.num_players := rfl

theorem advanceTurn_rngIdx_false (e : Env) : (advanceTurn e false).rngIdx = e.rngIdx + 1 := rfl

theorem execMove_entry_fail {e : Env} {roll : Int} {pl pw : Nat} (steps : Int)
    (h : roll ≠ 6 ∨ getPos e.positions pl pw ≠ -1) :
    execMove e roll pl pw true steps = none := by
  unfold execMove
  rw [if_pos rfl, if_pos h]

theorem execMove_meta {e : Env} {roll : Int} {pl pw : Nat} {en : Bool} {st : Int}
    {e1 : Env} {caps : List CaptureEvent} {m : Int}
    (h : execMove e roll pl pw en st = some (e1, caps, m)) : SameMeta e1 e := by
  cases en
  · rw [execMove_nonentry] at h
    cases h
    exact advancePawn_meta e pl pw st
  · by_cases hc1 : roll ≠ 6 ∨ getPos e.positions pl pw ≠ -1
    · rw [execMove_entry_fail st hc1] at h; cases h
    · push_neg at hc1
      by_cases hc2 : canEnterBase e pl = true
      · rw [execMove_entry_ok st hc1.1 hc1.2 hc2] at h
        cases h
        exact sameMeta_trans (applySquareEffect_meta _ pl pw)
          (sameMeta_trans (resolveCaptures_meta _ pl pw) (sameMeta_positions e _))
      · unfold execMove at h
        rw [if_pos rfl, if_neg (by push_neg; exact hc1), if_pos hc2] at h
        cases h

theorem execMove_shape {e : Env} {roll : Int} {pl pw : Nat} {en : Bool} {st : Int}
    {e1 : Env} {caps : List CaptureEvent} {m : Int}
    (h : execMove e roll pl pw en st = some (e1, caps, m)) (hs : Shape e) : Shape e1 := by
  cases en
  · rw [execMove_nonentry] at h
    cases h
    exact advancePawn_shape e pl pw st hs
  · by_cases hc1 : roll ≠ 6 ∨ getPos e.positions pl pw ≠ -1
    · rw [execMove_entry_fail st hc1] at h; cases h
    · push_neg at hc1
      by_cases hc2 : canEnterBase e pl = true
      · rw [execMove_entry_ok st hc1.1 hc1.2 hc2] at h
        cases h
        exact applySquareEffect_shape _ pl pw
          (resolveCaptures_shape _ pl pw (shape_setPos e pl pw 0 hs))
      · unfold execMove at h
        rw [if_pos rfl, if_neg (by push_neg; exact hc1), if_pos hc2] at h
        cases h

theorem execMove_events {e : Env} {roll : Int} {pl pw : Nat} {en : Bool} {st : Int}
    {e1 : Env} {caps : List CaptureEvent} {m : Int}
    (h : execMove e roll pl pw en st = some (e1, caps, m)) :
    ∀ ev ∈ caps, ev.player ≠ pl := by
  cases en
  · rw [execMove_nonentry] at h
    cases h
    exact advancePawn_events_ne e pl pw st
  · by_cases hc1 : roll ≠ 6 ∨ getPos e.positions pl pw ≠ -1
    · rw [execMove_entry_fail st hc1] at h; cases h
    · push_neg at hc1
      by_cases hc2 : canEnterBase e pl = true
      · rw [execMove_entry_ok st hc1.1 hc1.2 hc2] at h
        cases h
        intro ev hev
        rcases List.mem_append.mp hev with hev | hev
        · exact resolveCaptures_events_ne _ pl pw ev hev
        · exact applySquareEffect_events_ne _ pl pw ev hev
      · unfold execMove at h
        rw [if_pos rfl, if_neg (by push_neg; exact hc1), if_pos hc2] at h
        cases h

theorem calcSteps_elim {e : Env} {pl pw : Nat} {base steps : Int}
    (h : calcSteps e pl pw base = some steps) :
    0 ≤ getPos e.positions pl pw ∧ getPos e.positions pl pw < (e.board_size : Int) ∧
      steps = min (base + bonusE e pl pw)
        ((e.board_size : Int) - getPos e.positions pl pw) := by
  replace h : (if getPos e.positions pl pw < 0 ∨
        (e.board_size : Int) ≤ getPos e.positions pl pw then none
      else some (min (base + bonusE e pl pw)
        ((e.board_size : Int) - getPos e.positions pl pw))) = some steps := h
  by_cases hc : getPos e.positions pl pw < 0 ∨ (e.board_size : Int) ≤ getPos e.positions pl pw
  · rw [if_pos hc] at h; cases h
  · rw [if_neg hc] at h
    push_neg at hc
    exact ⟨hc.1, hc.2, (Option.some.inj h).symm⟩

theorem bonusE_nonneg (e : Env) (pl pw : Nat) (hpb : 0 ≤ e.power_bonus) :
    0 ≤ bonusE e pl pw := by
  show 0 ≤ (if getPos e.positions pl pw < 0 ∨
      (e.board_size : Int) ≤ getPos e.positions pl pw then (0 : Int)
    else if absSquare e pl (getPos e.positions pl pw) ∈ e.power_squares
      then e.power_bonus else 0)
  split_ifs
  · exact le_refl 0
  · exact hpb
  · exact le_refl 0

theorem calcSteps_pos {e : Env} {pl pw : Nat} {base steps : Int}
    (h : calcSteps e pl pw base = some steps) (hb : 1 ≤ base) (hpb : 0 ≤ e.power_bonus) :
    0 < steps := by
  obtain ⟨h0, hlt, hmin⟩ := calcSteps_elim h
  have hbon := bonusE_nonneg e pl pw hpb
  have h1 : (1 : Int) ≤ base + bonusE e pl pw := by omega
  have h2 : (1 : Int) ≤ (e.board_size : Int) - getPos e.positions pl pw := by omega
  rw [hmin]
  exact lt_of_lt_of_le zero_lt_one (le_min h1 h2)

theorem mem_allocRange {roll alloc : Int} (h : alloc ∈ allocRange roll) :
    1 ≤ alloc ∧ alloc ≤ (roll.toNat : Int) - 1 := by
  unfold allocRange at h
  simp only [List.mem_map, List.mem_range] at h
  obtain ⟨k, hk, hke⟩ := h
  have hke2 : (k : Int) + 1 = alloc := hke
  omega

theorem shape_advanceTurn {e : Env} (d : Bool) (hs : Shape e) : Shape (advanceTurn e d) :=
  shape_transfer (advanceTurn_cfg e d) (by rw [advanceTurn_positions])
    (fun op => by rw [advanceTurn_positions]) hs

theorem inbounds_advanceTurn {e : Env} (d : Bool) (hin : InBounds e) :
    InBounds (advanceTurn e d) :=
  inbounds_transfer (advanceTurn_cfg e d) (by rw [advanceTurn_positions])
    (fun op => by rw [advanceTurn_positions])
    (fun op qw => Or.inl (by rw [advanceTurn_positions])) hin

theorem separated_advanceTurn {e : Env} (d : Bool) (hsep : SameSeatSeparated e) :
    SameSeatSeparated (advanceTurn e d) :=
  separated_transfer (advanceTurn_cfg e d) (by rw [advanceTurn_positions])
    (fun op => by rw [advanceTurn_positions])
    (fun op qw => Or.inl (by rw [advanceTurn_positions])) hsep

/-! ### Branch equations for `step` -/

theorem stepE_pass (e : Env) (roll : Int) (hp : e.pending_roll = some roll) :
    stepE e (passOption e.current_player roll)
      = ⟨advanceTurn { e with turns := e.turns + 1 }
            (checkGlobalEnd { e with turns := e.turns + 1 }),
          -(1/2) - 1/5, checkGlobalEnd { e with turns := e.turns + 1 },
          passInfo { e with turns := e.turns + 1 } roll
            (passOption e.current_player roll)⟩ := by
  simp [stepE, hp, passOption, ActionKey.isPass]

theorem stepE_normal_none {e : Env} {o : ActionOption} {roll : Int} {e1 : Env}
    {caps1 : List CaptureEvent} {m1 : Int}
    (hp : e.pending_roll = some roll)
    (hpl : o.player = e.current_player)
    (hpass : o.key.isPass = false)
    (hrange : 0 ≤ o.primary ∧ o.primary < (e.num_pawns : Int))
    (hsec : o.secondary = none)
    (hexec : execMove { e with turns := e.turns + 1 } roll o.player o.primary.toNat
        o.primary_entry o.primary_steps = some (e1, caps1, m1)) :
    stepE e o = stepTail roll o (stateSig { e with turns := e.turns + 1 })
      (if o.primary_entry then 0
        else bonusE { e with turns := e.turns + 1 } o.player o.primary.toNat)
      0 m1 (if o.primary_entry then 0 else o.primary_steps) 0 e1 caps1 := by
  rw [hpl, hp] at hexec
  have h2 : ¬ ((e.cfg.num_pawns : Int) ≤ o.primary) := not_le.mpr hrange.2
  simp [stepE, hp, hpl, hpass, hsec, hexec, hrange.1, h2, Env.num_pawns]

theorem stepE_normal_some {e : Env} {o : ActionOption} {roll sec : Int} {eMid e2 : Env}
    {caps1 caps2 : List CaptureEvent} {m1 m2 : Int}
    (hp : e.pending_roll = some roll)
    (hpl : o.player = e.current_player)
    (hpass : o.key.isPass = false)
    (hrange : 0 ≤ o.primary ∧ o.primary < (e.num_pawns : Int))
    (hsec : o.secondary = some sec)
    (hrange2 : 0 ≤ sec ∧ sec < (e.num_pawns : Int))
    (hexec1 : execMove { e with turns := e.turns + 1 } roll o.player o.primary.toNat
        o.primary_entry o.primary_steps = some (eMid, caps1, m1))
    (hexec2 : execMove eMid roll o.player sec.toNat o.secondary_entry o.secondary_steps
        = some (e2, caps2, m2)) :
    stepE e o = stepTail roll o (stateSig { e with turns := e.turns + 1 })
      (if o.primary_entry then 0
        else bonusE { e with turns := e.turns + 1 } o.player o.primary.toNat)
      (if o.secondary_entry then 0 else bonusE eMid o.player sec.toNat)
      (m1 + m2) (if o.primary_entry then 0 else o.primary_steps)
      (if o.secondary_entry then 0 else o.secondary_steps) e2 (caps1 ++ caps2) := by
  rw [hpl, hp] at hexec1
  rw [hpl] at hexec2
  have h2 : ¬ ((e.cfg.num_pawns : Int) ≤ o.primary) := not_le.mpr hrange.2
  have h2s : ¬ ((e.cfg.num_pawns : Int) ≤ sec) := not_le.mpr hrange2.2
  simp [stepE, hp, hpl, hpass, hsec, hexec1, hexec2, hrange.1, h2,
    hrange2.1, h2s, Env.num_pawns]

theorem stepE_normal_fail {e : Env} {o : ActionOption} {roll : Int}
    (hp : e.pending_roll = some roll)
    (hpl : o.player = e.current_player)
    (hpass : o.key.isPass = false)
    (hrange : 0 ≤ o.primary ∧ o.primary < (e.num_pawns : Int))
    (hexec : execMove { e with turns := e.turns + 1 } roll o.player o.primary.toNat
        o.primary_entry o.primary_steps = none) :
    stepE e o = ⟨{ e with turns := e.turns + 1 }, -(1/2) - 2, false,
      invalidInfo { e with turns := e.turns + 1 }⟩ := by
  rw [hpl, hp] at hexec
  have h2 : ¬ ((e.cfg.num_pawns : Int) ≤ o.primary) := not_le.mpr hrange.2
  simp [stepE, hp, hpl, hpass, hexec, hrange.1, h2, Env.num_pawns]

/-! ### Step masters: invariant preservation over a whole valid `step` -/

theorem advanceTurn_rngStream (e : Env) (d : Bool) :
    (advanceTurn e d).rngStream = e.rngStream := by cases d <;> rfl

theorem wf_congr {e1 e2 : Env} (hc : e2.cfg = e1.cfg) (h : WFEnv e1) : WFEnv e2 := by
  unfold WFEnv Env.board_size Env.num_players Env.num_pawns Env.dice_sides at h ⊢
  rw [hc]
  exact h

theorem absSquare_zero (e : Env) (pl : Nat) (hb : 0 < e.board_size) :
    absSquare e pl 0 = startSquare e pl := by
  unfold absSquare startSquare
  rw [if_neg (by omega), if_neg (by omega), add_zero]

theorem hasFriendly_mono_excl {e : Env} {pl : Nat} {sq : Int} (excl : List Nat)
    (h : hasFriendlyOnSquare e pl sq [] = false) :
    hasFriendlyOnSquare e pl sq excl = false := by
  unfold hasFriendlyOnSquare at h ⊢
  rw [List.any_eq_false] at h ⊢
  intro i hi
  have hni := h i hi
  simp only [decide_eq_true_eq] at hni ⊢
  intro hcon
  exact hni ⟨by simp, hcon.2.1, hcon.2.2.1, hcon.2.2.2⟩

theorem stepE_shape {e : Env} {o : ActionOption} (hs : Shape e)
    (ho : o ∈ available_actions e) : Shape (stepE e o).env := by
  obtain ⟨roll, hp, hcase⟩ := mem_available_actions ho
  have hs1 : Shape { e with turns := e.turns + 1 } := hs
  rcases hcase with rfl | hsingle | hsplit
  · rw [stepE_pass e roll hp]
    exact shape_advanceTurn _ hs1
  · obtain ⟨pawn, hunf, hbo⟩ := mem_singleOptions hsingle
    obtain ⟨hrowb, hltb⟩ := mem_unfinishedIdx hunf
    have hnp : pawn < e.num_pawns := row_lt_num_pawns hs hrowb
    rcases buildSingleOption_inv hbo with ⟨hneg, h6, hce, rfl⟩ |
      ⟨steps, h0, hcs, hstp, hland, rfl⟩
    · have hrange : 0 ≤ (entryOption e.current_player pawn).primary ∧
          (entryOption e.current_player pawn).primary < (e.num_pawns : Int) :=
        ⟨Int.natCast_nonneg pawn,
          by show ((pawn : Nat) : Int) < (e.num_pawns : Int); exact_mod_cast hnp⟩
      by_cases hm1 : getPos e.positions e.current_player pawn = -1
      · have hexec := @execMove_entry_ok { e with turns := e.turns + 1 } roll
          e.current_player pawn 0 h6 hm1 hce
        have hplX : (entryOption e.current_player pawn).player = e.current_player := rfl
        have hpassX : (entryOption e.current_player pawn).key.isPass = false := rfl
        have hsecX : (entryOption e.current_player pawn).secondary = none := rfl
        rw [stepE_normal_none hp hplX hpassX hrange hsecX hexec, stepTail_env]
        exact shape_advanceTurn _ (applySquareEffect_shape _ _ _
          (resolveCaptures_shape _ _ _
            (shape_setPos { e with turns := e.turns + 1 } e.current_player pawn 0 hs1)))
      · have hexec := @execMove_entry_fail { e with turns := e.turns + 1 } roll
          e.current_player pawn 0 (Or.inr hm1)
        have hplX : (entryOption e.current_player pawn).player = e.current_player := rfl
        have hpassX : (entryOption e.current_player pawn).key.isPass = false := rfl
        rw [stepE_normal_fail hp hplX hpassX hrange hexec]
        exact hs1
    · have hrange : 0 ≤ (singleOption e.current_player pawn roll steps).primary ∧
          (singleOption e.current_player pawn roll steps).primary < (e.num_pawns : Int) :=
        ⟨Int.natCast_nonneg pawn,
          by show ((pawn : Nat) : Int) < (e.num_pawns : Int); exact_mod_cast hnp⟩
      have hexec := execMove_nonentry { e with turns := e.turns + 1 } roll
        e.current_player pawn steps
      have hplX : (singleOption e.current_player pawn roll steps).player = e.current_player := rfl
      have hpassX : (singleOption e.current_player pawn roll steps).key.isPass = false := rfl
      have hsecX : (singleOption e.current_player pawn roll steps).secondary = none := rfl
      rw [stepE_normal_none hp hplX hpassX hrange hsecX hexec, stepTail_env]
      exact shape_advanceTurn _
        (advancePawn_shape { e with turns := e.turns + 1 } e.current_player pawn steps hs1)
  · obtain ⟨ha, hb, hc, hd, p, s, alloc, sp, ss, hpm, hsm, hps, hal,
      hcs1, hcs2, hnz, hl1, hl2, rfl⟩ := mem_splitOptions hsplit
    obtain ⟨hpunf, -⟩ := List.mem_filter.mp hpm
    obtain ⟨hsunf, -⟩ := List.mem_filter.mp hsm
    obtain ⟨hprow, hplt⟩ := mem_unfinishedIdx hpunf
    obtain ⟨hsrow, hslt⟩ := mem_unfinishedIdx hsunf
    have hrange : 0 ≤ (splitOption e.current_player roll p s alloc sp ss).primary ∧
        (splitOption e.current_player roll p s alloc sp ss).primary < (e.num_pawns : Int) :=
      ⟨Int.natCast_nonneg p,
        by show ((p : Nat) : Int) < (e.num_pawns : Int); exact_mod_cast row_lt_num_pawns hs hprow⟩
    have hrange2 : 0 ≤ ((s : Nat) : Int) ∧ ((s : Nat) : Int) < (e.num_pawns : Int) :=
      ⟨Int.natCast_nonneg s, by exact_mod_cast row_lt_num_pawns hs hsrow⟩
    have hexec1 := execMove_nonentry { e with turns := e.turns + 1 } roll
      e.current_player p sp
    have hexec2 := execMove_nonentry
      (advancePawn { e with turns := e.turns + 1 } e.current_player p sp).1 roll
      e.current_player s ss
    have hplX : (splitOption e.current_player roll p s alloc sp ss).player
        = e.current_player := rfl
    have hpassX : (splitOption e.current_player roll p s alloc sp ss).key.isPass = false := rfl
    have hsecX : (splitOption e.current_player roll p s alloc sp ss).secondary
        = some ((s : Nat) : Int) := rfl
    rw [stepE_normal_some hp hplX hpassX hrange hsecX hrange2 hexec1 hexec2, stepTail_env]
    exact shape_advanceTurn _ (advancePawn_shape _ _ _ _
      (advancePawn_shape { e with turns := e.turns + 1 } e.current_player p sp hs1))

theorem stepE_meta {e : Env} {o : ActionOption} (hs : Shape e)
    (ho : o ∈ available_actions e) :
    (stepE e o).env.cfg = e.cfg ∧ (stepE e o).env.rngStream = e.rngStream := by
  obtain ⟨roll, hp, hcase⟩ := mem_available_actions ho
  rcases hcase with rfl | hsingle | hsplit
  · rw [stepE_pass e roll hp]
    exact ⟨advanceTurn_cfg _ _, advanceTurn_rngStream _ _⟩
  · obtain ⟨pawn, hunf, hbo⟩ := mem_singleOptions hsingle
    obtain ⟨hrowb, hltb⟩ := mem_unfinishedIdx hunf
    have hnp : pawn < e.num_pawns := row_lt_num_pawns hs hrowb
    rcases buildSingleOption_inv hbo with ⟨hneg, h6, hce, rfl⟩ |
      ⟨steps, h0, hcs, hstp, hland, rfl⟩
    · have hrange : 0 ≤ (entryOption e.current_player pawn).primary ∧
          (entryOption e.current_player pawn).primary < (e.num_pawns : Int) :=
        ⟨Int.natCast_nonneg pawn,
          by show ((pawn : Nat) : Int) < (e.num_pawns : Int); exact_mod_cast hnp⟩
      by_cases hm1 : getPos e.positions e.current_player pawn = -1
      · have hexec := @execMove_entry_ok { e with turns := e.turns + 1 } roll
          e.current_player pawn 0 h6 hm1 hce
        have hplX : (entryOption e.current_player pawn).player = e.current_player := rfl
        have hpassX : (entryOption e.current_player pawn).key.isPass = false := rfl
        have hsecX : (entryOption e.current_player pawn).secondary = none := rfl
        rw [stepE_normal_none hp hplX hpassX hrange hsecX hexec, stepTail_env]
        have hm := execMove_meta hexec
        exact ⟨(advanceTurn_cfg _ _).trans hm.1, (advanceTurn_rngStream _ _).trans hm.2.1⟩
      · have hexec := @execMove_entry_fail { e with turns := e.turns + 1 } roll
          e.current_player pawn 0 (Or.inr hm1)
        have hplX : (entryOption e.current_player pawn).player = e.current_player := rfl
        have hpassX : (entryOption e.current_player pawn).key.isPass = false := rfl
        rw [stepE_normal_fail hp hplX hpassX hrange hexec]
        exact ⟨rfl, rfl⟩
    · have hrange : 0 ≤ (singleOption e.current_player pawn roll steps).primary ∧
          (singleOption e.current_player pawn roll steps).primary < (e.num_pawns : Int) :=
        ⟨Int.natCast_nonneg pawn,
          by show ((pawn : Nat) : Int) < (e.num_pawns : Int); exact_mod_cast hnp⟩
      have hexec := execMove_nonentry { e with turns := e.turns + 1 } roll
        e.current_player pawn steps
      have hplX : (singleOption e.current_player pawn roll steps).player = e.current_player := rfl
      have hpassX : (singleOption e.current_player pawn roll steps).key.isPass = false := rfl
      have hsecX : (singleOption e.current_player pawn roll steps).secondary = none := rfl
      rw [stepE_normal_none hp hplX hpassX hrange hsecX hexec, stepTail_env]
      have hm := execMove_meta hexec
      exact ⟨(advanceTurn_cfg _ _).trans hm.1, (advanceTurn_rngStream _ _).trans hm.2.1⟩
  · obtain ⟨ha, hb, hc, hd, p, s, alloc, sp, ss, hpm, hsm, hps, hal,
      hcs1, hcs2, hnz, hl1, hl2, rfl⟩ := mem_splitOptions hsplit
    obtain ⟨hpunf, -⟩ := List.mem_filter.mp hpm
    obtain ⟨hsunf, -⟩ := List.mem_filter.mp hsm
    obtain ⟨hprow, hplt⟩ := mem_unfinishedIdx hpunf
    obtain ⟨hsrow, hslt⟩ := mem_unfinishedIdx hsunf
    have hrange : 0 ≤ (splitOption e.current_player roll p s alloc sp ss).primary ∧
        (splitOption e.current_player roll p s alloc sp ss).primary < (e.num_pawns : Int) :=
      ⟨Int.natCast_nonneg p,
        by show ((p : Nat) : Int) < (e.num_pawns : Int); exact_mod_cast row_lt_num_pawns hs hprow⟩
    have hrange2 : 0 ≤ ((s : Nat) : Int) ∧ ((s : Nat) : Int) < (e.num_pawns : Int) :=
      ⟨Int.natCast_nonneg s, by exact_mod_cast row_lt_num_pawns hs hsrow⟩
    have hexec1 := execMove_nonentry { e with turns := e.turns + 1 } roll
      e.current_player p sp
    have hexec2 := execMove_nonentry
      (advancePawn { e with turns := e.turns + 1 } e.current_player p sp).1 roll
      e.current_player s ss
    have hplX : (splitOption e.current_player roll p s alloc sp ss).player
        = e.current_player := rfl
    have hpassX : (splitOption e.current_player roll p s alloc sp ss).key.isPass = false := rfl
    have hsecX : (splitOption e.current_player roll p s alloc sp ss).secondary
        = some ((s : Nat) : Int) := rfl
    rw [stepE_normal_some hp hplX hpassX hrange hsecX hrange2 hexec1 hexec2, stepTail_env]
    have hm1 := execMove_meta hexec1
    have hm2 := execMove_meta hexec2
    exact ⟨(advanceTurn_cfg _ _).trans (hm2.1.trans hm1.1),
      (advanceTurn_rngStream _ _).trans (hm2.2.1.trans hm1.2.1)⟩

theorem stepE_inbounds {e : Env} {o : ActionOption} (hwf : WFEnv e) (hs : Shape e)
    (hin : InBounds e) (hpb : 0 ≤ e.power_bonus) (ho : o ∈ available_actions e) :
    InBounds (stepE e o).env := by
  obtain ⟨roll, hp, hcase⟩ := mem_available_actions ho
  have hs1 : Shape { e with turns := e.turns + 1 } := hs
  have hin1 : InBounds { e with turns := e.turns + 1 } := hin
  rcases hcase with rfl | hsingle | hsplit
  · rw [stepE_pass e roll hp]
    exact inbounds_advanceTurn _ hin1
  · obtain ⟨pawn, hunf, hbo⟩ := mem_singleOptions hsingle
    obtain ⟨hrowb, hltb⟩ := mem_unfinishedIdx hunf
    have hnp : pawn < e.num_pawns := row_lt_num_pawns hs hrowb
    rcases buildSingleOption_inv hbo with ⟨hneg, h6, hce, rfl⟩ |
      ⟨steps, h0, hcs, hstp, hland, rfl⟩
    · have hrange : 0 ≤ (entryOption e.current_player pawn).primary ∧
          (entryOption e.current_player pawn).primary < (e.num_pawns : Int) :=
        ⟨Int.natCast_nonneg pawn,
          by show ((pawn : Nat) : Int) < (e.num_pawns : Int); exact_mod_cast hnp⟩
      have hm1 : getPos e.positions e.current_player pawn = -1 :=
        getPos_neg_eq_neg_one hin hneg
      have hexec := @execMove_entry_ok { e with turns := e.turns + 1 } roll
        e.current_player pawn 0 h6 hm1 hce
      have hplX : (entryOption e.current_player pawn).player = e.current_player := rfl
      have hpassX : (entryOption e.current_player pawn).key.isPass = false := rfl
      have hsecX : (entryOption e.current_player pawn).secondary = none := rfl
      rw [stepE_normal_none hp hplX hpassX hrange hsecX hexec, stepTail_env]
      refine inbounds_advanceTurn _ (applySquareEffect_inbounds _ _ _ ?_ ?_)
      · exact resolveCaptures_shape _ _ _
          (shape_setPos { e with turns := e.turns + 1 } e.current_player pawn 0 hs1)
      · refine resolveCaptures_inbounds _ _ _ ?_
        refine inbounds_setPos { e with turns := e.turns + 1 } e.current_player pawn 0 hin1
          (by omega) ?_
        show (0 : Int) < (e.board_size : Int) + (e.num_pawns : Int)
        have hb0 : 0 < e.board_size := hwf.1
        omega
    · have hrange : 0 ≤ (singleOption e.current_player pawn roll steps).primary ∧
          (singleOption e.current_player pawn roll steps).primary < (e.num_pawns : Int) :=
        ⟨Int.natCast_nonneg pawn,
          by show ((pawn : Nat) : Int) < (e.num_pawns : Int); exact_mod_cast hnp⟩
      have hexec := execMove_nonentry { e with turns := e.turns + 1 } roll
        e.current_player pawn steps
      have hplX : (singleOption e.current_player pawn roll steps).player = e.current_player := rfl
      have hpassX : (singleOption e.current_player pawn roll steps).key.isPass = false := rfl
      have hsecX : (singleOption e.current_player pawn roll steps).secondary = none := rfl
      rw [stepE_normal_none hp hplX hpassX hrange hsecX hexec, stepTail_env]
      refine inbounds_advanceTurn _
        (advancePawn_inbounds { e with turns := e.turns + 1 } e.current_player pawn steps
          hs1 hin1 hltb (by omega))
  · obtain ⟨ha, hb, hc, hd, p, s, alloc, sp, ss, hpm, hsm, hps, hal,
      hcs1, hcs2, hnz, hl1, hl2, rfl⟩ := mem_splitOptions hsplit
    obtain ⟨hpunf, -⟩ := List.mem_filter.mp hpm
    obtain ⟨hsunf, -⟩ := List.mem_filter.mp hsm
    obtain ⟨hprow, hplt⟩ := mem_unfinishedIdx hpunf
    obtain ⟨hsrow, hslt⟩ := mem_unfinishedIdx hsunf
    have hrange : 0 ≤ (splitOption e.current_player roll p s alloc sp ss).primary ∧
        (splitOption e.current_player roll p s alloc sp ss).primary < (e.num_pawns : Int) :=
      ⟨Int.natCast_nonneg p,
        by show ((p : Nat) : Int) < (e.num_pawns : Int); exact_mod_cast row_lt_num_pawns hs hprow⟩
    have hrange2 : 0 ≤ ((s : Nat) : Int) ∧ ((s : Nat) : Int) < (e.num_pawns : Int) :=
      ⟨Int.natCast_nonneg s, by exact_mod_cast row_lt_num_pawns hs hsrow⟩
    have hal2 := mem_allocRange hal
    have hsp : 0 < sp := calcSteps_pos hcs1 (by omega) hpb
    have hss : 0 < ss := calcSteps_pos hcs2 (by omega) hpb
    have hexec1 := execMove_nonentry { e with turns := e.turns + 1 } roll
      e.current_player p sp
    have hexec2 := execMove_nonentry
      (advancePawn { e with turns := e.turns + 1 } e.current_player p sp).1 roll
      e.current_player s ss
    have hsMid := advancePawn_shape { e with turns := e.turns + 1 } e.current_player p sp hs1
    have hinMid := advancePawn_inbounds { e with turns := e.turns + 1 } e.current_player p sp
      hs1 hin1 hplt (by omega)
    have hother := advancePawn_acting_other { e with turns := e.turns + 1 }
      e.current_player p s sp (Ne.symm hps)
    have hbMid : (((advancePawn { e with turns := e.turns + 1 }
          e.current_player p sp).1.board_size : Nat) : Int) = (e.board_size : Int) := by
      unfold Env.board_size
      rw [(advancePawn_meta { e with turns := e.turns + 1 } e.current_player p sp).1]
    have hltMid : getPos (advancePawn { e with turns := e.turns + 1 }
          e.current_player p sp).1.positions e.current_player s
        < (((advancePawn { e with turns := e.turns + 1 }
          e.current_player p sp).1.board_size : Nat) : Int) := by
      rw [hother, hbMid]
      exact hslt
    have hplX : (splitOption e.current_player roll p s alloc sp ss).player
        = e.current_player := rfl
    have hpassX : (splitOption e.current_player roll p s alloc sp ss).key.isPass = false := rfl
    have hsecX : (splitOption e.current_player roll p s alloc sp ss).secondary
        = some ((s : Nat) : Int) := rfl
    rw [stepE_normal_some hp hplX hpassX hrange hsecX hrange2 hexec1 hexec2, stepTail_env]
    exact inbounds_advanceTurn _
      (advancePawn_inbounds _ _ _ _ hsMid hinMid hltMid (by omega))

theorem stepE_separated {e : Env} {o : ActionOption} (hwf : WFEnv e) (hs : Shape e)
    (hsep : SameSeatSeparated e) (ho : o ∈ available_actions e) (hns : noSplit o) :
    SameSeatSeparated (stepE e o).env := by
  obtain ⟨roll, hp, hcase⟩ := mem_available_actions ho
  have hs1 : Shape { e with turns := e.turns + 1 } := hs
  have hsep1 : SameSeatSeparated { e with turns := e.turns + 1 } := hsep
  rcases hcase with rfl | hsingle | hsplit
  · rw [stepE_pass e roll hp]
    exact separated_advanceTurn _ hsep1
  · obtain ⟨pawn, hunf, hbo⟩ := mem_singleOptions hsingle
    obtain ⟨hrowb, hltb⟩ := mem_unfinishedIdx hunf
    have hnp : pawn < e.num_pawns := row_lt_num_pawns hs hrowb
    rcases buildSingleOption_inv hbo with ⟨hneg, h6, hce, rfl⟩ |
      ⟨steps, h0, hcs, hstp, hland, rfl⟩
    · have hrange : 0 ≤ (entryOption e.current_player pawn).primary ∧
          (entryOption e.current_player pawn).primary < (e.num_pawns : Int) :=
        ⟨Int.natCast_nonneg pawn,
          by show ((pawn : Nat) : Int) < (e.num_pawns : Int); exact_mod_cast hnp⟩
      have hplX : (entryOption e.current_player pawn).player = e.current_player := rfl
      have hpassX : (entryOption e.current_player pawn).key.isPass = false := rfl
      have hsecX : (entryOption e.current_player pawn).secondary = none := rfl
      by_cases hm1 : getPos e.positions e.current_player pawn = -1
      · have hexec := @execMove_entry_ok { e with turns := e.turns + 1 } roll
          e.current_player pawn 0 h6 hm1 hce
        rw [stepE_normal_none hp hplX hpassX hrange hsecX hexec, stepTail_env]
        refine separated_advanceTurn _ (applySquareEffect_separated _ _ _
          (resolveCaptures_separated _ _ _ ?_))
        refine separated_setPos_free { e with turns := e.turns + 1 } e.current_player pawn 0
          hsep1 ?_
        have hb0 : 0 < e.board_size := hwf.1
        have hzero := absSquare_zero { e with turns := e.turns + 1 } e.current_player hb0
        rw [hzero]
        exact hasFriendly_mono_excl _ (canEnterBase_elim hce)
      · have hexec := @execMove_entry_fail { e with turns := e.turns + 1 } roll
          e.current_player pawn 0 (Or.inr hm1)
        rw [stepE_normal_fail hp hplX hpassX hrange hexec]
        exact hsep1
    · have hrange : 0 ≤ (singleOption e.current_player pawn roll steps).primary ∧
          (singleOption e.current_player pawn roll steps).primary < (e.num_pawns : Int) :=
        ⟨Int.natCast_nonneg pawn,
          by show ((pawn : Nat) : Int) < (e.num_pawns : Int); exact_mod_cast hnp⟩
      have hexec := execMove_nonentry { e with turns := e.turns + 1 } roll
        e.current_player pawn steps
      have hplX : (singleOption e.current_player pawn roll steps).player = e.current_player := rfl
      have hpassX : (singleOption e.current_player pawn roll steps).key.isPass = false := rfl
      have hsecX : (singleOption e.current_player pawn roll steps).secondary = none := rfl
      rw [stepE_normal_none hp hplX hpassX hrange hsecX hexec, stepTail_env]
      exact separated_advanceTurn _ (advancePawn_separated { e with turns := e.turns + 1 }
        e.current_player pawn steps hsep1 hland)
  · obtain ⟨ha, hb, hc, hd, p, s, alloc, sp, ss, hpm, hsm, hps, hal,
      hcs1, hcs2, hnz, hl1, hl2, rfl⟩ := mem_splitOptions hsplit
    exact absurd hns (by simp [noSplit, splitOption])

theorem otherWinner_of_doneFlag {e2 : Env} (h : stepDoneFlag e2 = false) :
    otherWinnerB e2 = false := by
  unfold stepDoneFlag at h
  rcases hx : otherWinnerB e2 with _ | _
  · rfl
  · rw [hx] at h; simp at h

theorem stepE_alive {e : Env} {o : ActionOption} (hs : Shape e)
    (how : otherWinnerB e = false) (ho : o ∈ available_actions e)
    (hdone : (stepE e o).done = false) : otherWinnerB (stepE e o).env = false := by
  obtain ⟨roll, hp, hcase⟩ := mem_available_actions ho
  rcases hcase with rfl | hsingle | hsplit
  · rw [stepE_pass e roll hp]
    show otherWinnerB (advanceTurn { e with turns := e.turns + 1 }
      (checkGlobalEnd { e with turns := e.turns + 1 })) = false
    rw [otherWinnerB_congr (advanceTurn_cfg _ _) (advanceTurn_positions _ _),
      otherWinnerB_congr (updTurns_cfg e _) (updTurns_positions e _)]
    exact how
  · obtain ⟨pawn, hunf, hbo⟩ := mem_singleOptions hsingle
    obtain ⟨hrowb, hltb⟩ := mem_unfinishedIdx hunf
    have hnp : pawn < e.num_pawns := row_lt_num_pawns hs hrowb
    rcases buildSingleOption_inv hbo with ⟨hneg, h6, hce, rfl⟩ |
      ⟨steps, h0, hcs, hstp, hland, rfl⟩
    · have hrange : 0 ≤ (entryOption e.current_player pawn).primary ∧
          (entryOption e.current_player pawn).primary < (e.num_pawns : Int) :=
        ⟨Int.natCast_nonneg pawn,
          by show ((pawn : Nat) : Int) < (e.num_pawns : Int); exact_mod_cast hnp⟩
      have hplX : (entryOption e.current_player pawn).player = e.current_player := rfl
      have hpassX : (entryOption e.current_player pawn).key.isPass = false := rfl
      have hsecX : (entryOption e.current_player pawn).secondary = none := rfl
      by_cases hm1 : getPos e.positions e.current_player pawn = -1
      · have hexec := @execMove_entry_ok { e with turns := e.turns + 1 } roll
          e.current_player pawn 0 h6 hm1 hce
        have heq := stepE_normal_none hp hplX hpassX hrange hsecX hexec
        rw [heq, stepTail_done] at hdone
        rw [heq, stepTail_env,
          otherWinnerB_congr (advanceTurn_cfg _ _) (advanceTurn_positions _ _)]
        exact otherWinner_of_doneFlag hdone
      · have hexec := @execMove_entry_fail { e with turns := e.turns + 1 } roll
          e.current_player pawn 0 (Or.inr hm1)
        rw [stepE_normal_fail hp hplX hpassX hrange hexec]
        show otherWinnerB { e with turns := e.turns + 1 } = false
        rw [otherWinnerB_congr (updTurns_cfg e _) (updTurns_positions e _)]
        exact how
    · have hrange : 0 ≤ (singleOption e.current_player pawn roll steps).primary ∧
          (singleOption e.current_player pawn roll steps).primary < (e.num_pawns : Int) :=
        ⟨Int.natCast_nonneg pawn,
          by show ((pawn : Nat) : Int) < (e.num_pawns : Int); exact_mod_cast hnp⟩
      have hexec := execMove_nonentry { e with turns := e.turns + 1 } roll
        e.current_player pawn steps
      have hplX : (singleOption e.current_player pawn roll steps).player = e.current_player := rfl
      have hpassX : (singleOption e.current_player pawn roll steps).key.isPass = false := rfl
      have hsecX : (singleOption e.current_player pawn roll steps).secondary = none := rfl
      have heq := stepE_normal_none hp hplX hpassX hrange hsecX hexec
      rw [heq, stepTail_done] at hdone
      rw [heq, stepTail_env,
        otherWinnerB_congr (advanceTurn_cfg _ _) (advanceTurn_positions _ _)]
      exact otherWinner_of_doneFlag hdone
  · obtain ⟨ha, hb, hc, hd, p, s, alloc, sp, ss, hpm, hsm, hps, hal,
      hcs1, hcs2, hnz, hl1, hl2, rfl⟩ := mem_splitOptions hsplit
    obtain ⟨hpunf, -⟩ := List.mem_filter.mp hpm
    obtain ⟨hsunf, -⟩ := List.mem_filter.mp hsm
    obtain ⟨hprow, hplt⟩ := mem_unfinishedIdx hpunf
    obtain ⟨hsrow, hslt⟩ := mem_unfinishedIdx hsunf
    have hrange : 0 ≤ (splitOption e.current_player roll p s alloc sp ss).primary ∧
        (splitOption e.current_player roll p s alloc sp ss).primary < (e.num_pawns : Int) :=
      ⟨Int.natCast_nonneg p,
        by show ((p : Nat) : Int) < (e.num_pawns : Int); exact_mod_cast row_lt_num_pawns hs hprow⟩
    have hrange2 : 0 ≤ ((s : Nat) : Int) ∧ ((s : Nat) : Int) < (e.num_pawns : Int) :=
      ⟨Int.natCast_nonneg s, by exact_mod_cast row_lt_num_pawns hs hsrow⟩
    have hexec1 := execMove_nonentry { e with turns := e.turns + 1 } roll
      e.current_player p sp
    have hexec2 := execMove_nonentry
      (advancePawn { e with turns := e.turns + 1 } e.current_player p sp).1 roll
      e.current_player s ss
    have hplX : (splitOption e.current_player roll p s alloc sp ss).player
        = e.current_player := rfl
    have hpassX : (splitOption e.current_player roll p s alloc sp ss).key.isPass = false := rfl
    have hsecX : (splitOption e.current_player roll p s alloc sp ss).secondary
        = some ((s : Nat) : Int) := rfl
    have heq := stepE_normal_some hp hplX hpassX hrange hsecX hrange2 hexec1 hexec2
    rw [heq, stepTail_done] at hdone
    rw [heq, stepTail_env,
      otherWinnerB_congr (advanceTurn_cfg _ _) (advanceTurn_positions _ _)]
    exact otherWinner_of_doneFlag hdone

theorem stepE_pending_of_done {e : Env} {o : ActionOption} (hs : Shape e)
    (ho : o ∈ available_actions e) (hdone : (stepE e o).done = true) :
    (stepE e o).env.pending_roll = none := by
  obtain ⟨roll, hp, hcase⟩ := mem_available_actions ho
  rcases hcase with rfl | hsingle | hsplit
  · have heq := stepE_pass e roll hp
    rw [heq] at hdone
    replace hdone : checkGlobalEnd { e with turns := e.turns + 1 } = true := hdone
    rw [heq]
    show (advanceTurn { e with turns := e.turns + 1 }
      (checkGlobalEnd { e with turns := e.turns + 1 })).pending_roll = none
    rw [hdone, advanceTurn_true]
  · obtain ⟨pawn, hunf, hbo⟩ := mem_singleOptions hsingle
    obtain ⟨hrowb, hltb⟩ := mem_unfinishedIdx hunf
    have hnp : pawn < e.num_pawns := row_lt_num_pawns hs hrowb
    rcases buildSingleOption_inv hbo with ⟨hneg, h6, hce, rfl⟩ |
      ⟨steps, h0, hcs, hstp, hland, rfl⟩
    · have hrange : 0 ≤ (entryOption e.current_player pawn).primary ∧
          (entryOption e.current_player pawn).primary < (e.num_pawns : Int) :=
        ⟨Int.natCast_nonneg pawn,
          by show ((pawn : Nat) : Int) < (e.num_pawns : Int); exact_mod_cast hnp⟩
      have hplX : (entryOption e.current_player pawn).player = e.current_player := rfl
      have hpassX : (entryOption e.current_player pawn).key.isPass = false := rfl
      have hsecX : (entryOption e.current_player pawn).secondary = none := rfl
      by_cases hm1 : getPos e.positions e.current_player pawn = -1
      · have hexec := @execMove_entry_ok { e with turns := e.turns + 1 } roll
          e.current_player pawn 0 h6 hm1 hce
        have heq := stepE_normal_none hp hplX hpassX hrange hsecX hexec
        rw [heq, stepTail_done] at hdone
        rw [heq, stepTail_env, hdone, advanceTurn_true]
      · have hexec := @execMove_entry_fail { e with turns := e.turns + 1 } roll
          e.current_player pawn 0 (Or.inr hm1)
        rw [stepE_normal_fail hp hplX hpassX hrange hexec] at hdone
        replace hdone : (false : Bool) = true := hdone
        exact Bool.noConfusion hdone
    · have hrange : 0 ≤ (singleOption e.current_player pawn roll steps).primary ∧
          (singleOption e.current_player pawn roll steps).primary < (e.num_pawns : Int) :=
        ⟨Int.natCast_nonneg pawn,
          by show ((pawn : Nat) : Int) < (e.num_pawns : Int); exact_mod_cast hnp⟩
      have hexec := execMove_nonentry { e with turns := e.turns + 1 } roll
        e.current_player pawn steps
      have hplX : (singleOption e.current_player pawn roll steps).player = e.current_player := rfl
      have hpassX : (singleOption e.current_player pawn roll steps).key.isPass = false := rfl
      have hsecX : (singleOption e.current_player pawn roll steps).secondary = none := rfl
      have heq := stepE_normal_none hp hplX hpassX hrange hsecX hexec
      rw [heq, stepTail_done] at hdone
      rw [heq, stepTail_env, hdone, advanceTurn_true]
  · obtain ⟨ha, hb, hc, hd, p, s, alloc, sp, ss, hpm, hsm, hps, hal,
      hcs1, hcs2, hnz, hl1, hl2, rfl⟩ := mem_splitOptions hsplit
    obtain ⟨hpunf, -⟩ := List.mem_filter.mp hpm
    obtain ⟨hsunf, -⟩ := List.mem_filter.mp hsm
    obtain ⟨hprow, hplt⟩ := mem_unfinishedIdx hpunf
    obtain ⟨hsrow, hslt⟩ := mem_unfinishedIdx hsunf
    have hrange : 0 ≤ (splitOption e.current_player roll p s alloc sp ss).primary ∧
        (splitOption e.current_player roll p s alloc sp ss).primary < (e.num_pawns : Int) :=
      ⟨Int.natCast_nonneg p,
        by show ((p : Nat) : Int) < (e.num_pawns : Int); exact_mod_cast row_lt_num_pawns hs hprow⟩
    have hrange2 : 0 ≤ ((s : Nat) : Int) ∧ ((s : Nat) : Int) < (e.num_pawns : Int) :=
      ⟨Int.natCast_nonneg s, by exact_mod_cast row_lt_num_pawns hs hsrow⟩
    have hexec1 := execMove_nonentry { e with turns := e.turns + 1 } roll
      e.current_player p sp
    have hexec2 := execMove_nonentry
      (advancePawn { e with turns := e.turns + 1 } e.current_player p sp).1 roll
      e.current_player s ss
    have hplX : (splitOption e.current_player roll p s alloc sp ss).player
        = e.current_player := rfl
    have hpassX : (splitOption e.current_player roll p s alloc sp ss).key.isPass = false := rfl
    have hsecX : (splitOption e.current_player roll p s alloc sp ss).secondary
        = some ((s : Nat) : Int) := rfl
    have heq := stepE_normal_some hp hplX hpassX hrange hsecX hrange2 hexec1 hexec2
    rw [heq, stepTail_done] at hdone
    rw [heq, stepTail_env, hdone, advanceTurn_true]

/-! ### `reset` establishes the invariants -/

theorem resetE_positions (e : Env) :
    (resetE e).positions
      = List.replicate e.num_players (List.replicate e.num_pawns (-1 : Int)) := rfl

theorem resetE_cfg (e : Env) : (resetE e).cfg = e.cfg := rfl

theorem resetE_pending (e : Env) : (resetE e).pending_roll = some (drawRoll e) := rfl

theorem shape_resetE (e : Env) : Shape (resetE e) := by
  constructor
  · show (List.replicate e.num_players (List.replicate e.num_pawns (-1 : Int))).length
      = e.num_players
    exact List.length_replicate _ _
  · intro pl hpl
    rw [resetE_positions] at hpl ⊢
    rw [List.length_replicate] at hpl
    rw [getD_replicate _ _ _ _ hpl]
    exact List.length_replicate _ _

theorem getPos_resetE (e : Env) {pl pw : Nat} (hpl : pl < (resetE e).positions.length)
    (hpw : pw < ((resetE e).positions.getD pl []).length) :
    getPos (resetE e).positions pl pw = -1 := by
  rw [resetE_positions] at hpl hpw ⊢
  rw [List.length_replicate] at hpl
  unfold getPos
  rw [getD_replicate _ _ _ _ hpl] at hpw ⊢
  rw [List.length_replicate] at hpw
  rw [getD_replicate _ _ _ _ hpw]

theorem inbounds_resetE (e : Env) : InBounds (resetE e) := by
  intro pl hpl pw hpw
  rw [getPos_resetE e hpl hpw]
  constructor
  · omega
  · have h1 : (0 : Int) ≤ ((resetE e).board_size : Int) := Int.natCast_nonneg _
    have h2 : (0 : Int) ≤ ((resetE e).num_pawns : Int) := Int.natCast_nonneg _
    omega

theorem separated_resetE (e : Env) : SameSeatSeparated (resetE e) := by
  intro pl hpl i hi j hj hcond
  obtain ⟨hij, hoi, hoj⟩ := hcond
  exfalso
  have hval : getPos (resetE e).positions pl i = -1 := getPos_resetE e hpl hi
  have := hoi.1
  omega

theorem otherWinnerB_resetE (e : Env) (hwf : WFEnv e) : otherWinnerB (resetE e) = false := by
  unfold otherWinnerB
  rw [List.any_eq_false]
  intro idx hidx
  have hlt : idx < (resetE e).num_players := by
    have hm := List.mem_of_mem_drop hidx
    exact List.mem_range.mp hm
  intro hfin
  unfold playerFinishedB at hfin
  rw [List.all_eq_true] at hfin
  have hrow : (resetE e).positions.getD idx [] = List.replicate e.num_pawns (-1 : Int) := by
    rw [resetE_positions]
    exact getD_replicate _ _ _ _ hlt
  rw [hrow] at hfin
  have hmem : (-1 : Int) ∈ List.replicate e.num_pawns (-1 : Int) :=
    List.mem_replicate.mpr ⟨by have := hwf.2.2.2.2.1; omega, rfl⟩
  have hcon := hfin (-1) hmem
  rw [decide_eq_true_eq] at hcon
  have hb : (0 : Int) ≤ ((resetE e).board_size : Int) := Int.natCast_nonneg _
  omega

/-! ### Reachability inductions -/

theorem reachableVia_core {P : ActionOption → Prop} {e : Env} (h : ReachableVia P e) :
    WFEnv e ∧ Shape e := by
  induction h with
  | reset e0 hwf => exact ⟨wf_congr (resetE_cfg e0) hwf, shape_resetE e0⟩
  | step e0 o hr ho hp ih =>
    exact ⟨wf_congr (stepE_meta ih.2 ho).1 ih.1, stepE_shape ih.2 ho⟩

theorem reachableVia_inbounds {P : ActionOption → Prop} {e : Env} (h : ReachableVia P e)
    (hpb : 0 ≤ e.power_bonus) : InBounds e := by
  induction h with
  | reset e0 hwf => exact inbounds_resetE e0
  | step e0 o hr ho hp ih =>
    have hcore := reachableVia_core hr
    have hpb0 : 0 ≤ e0.power_bonus := by
      have hc := (stepE_meta hcore.2 ho).1
      unfold Env.power_bonus at hpb ⊢
      rw [hc] at hpb
      exact hpb
    exact stepE_inbounds hcore.1 hcore.2 (ih hpb0) hpb0 ho

theorem reachableVia_alive {P : ActionOption → Prop} {e : Env} (h : ReachableVia P e) :
    e.pending_roll = none ∨ otherWinnerB e = false := by
  induction h with
  | reset e0 hwf => exact Or.inr (otherWinnerB_resetE e0 hwf)
  | step e0 o hr ho hp ih =>
    have hcore := reachableVia_core hr
    obtain ⟨roll, hp0, -⟩ := mem_available_actions ho
    have how : otherWinnerB e0 = false := by
      rcases ih with hnone | hok
      · rw [hnone] at hp0; cases hp0
      · exact hok
    rcases hdone : (stepE e0 o).done with _ | _
    · exact Or.inr (stepE_alive hcore.2 how ho hdone)
    · exact Or.inl (stepE_pending_of_done hcore.2 ho hdone)

theorem reachable_noSplit_separated {e : Env} (h : ReachableVia noSplit e) :
    SameSeatSeparated e := by
  induction h with
  | reset e0 hwf => exact separated_resetE e0
  | step e0 o hr ho hp ih =>
    have hcore := reachableVia_core hr
    exact stepE_separated hcore.1 hcore.2 ih ho hp

theorem checkGlobalEnd_eq_doneFlag {e2 : Env} (how : otherWinnerB e2 = false) :
    checkGlobalEnd e2 = stepDoneFlag e2 := by
  unfold checkGlobalEnd stepDoneFlag
  rw [how]
  cases playerFinishedB e2 0 <;> simp

theorem stepDoneFlag_eq {e2 : Env} {m t : Nat} (hm : e2.max_turns = m) (ht : e2.turns = t) :
    stepDoneFlag e2 = (playerFinishedB e2 0 || otherWinnerB e2 || decide (m ≤ t)) := by
  unfold stepDoneFlag
  rw [hm, ht]

theorem stepE_captures_ne {e : Env} {o : ActionOption} (hs : Shape e)
    (ho : o ∈ available_actions e) :
    ∀ ev ∈ (stepE e o).info.captures, ev.player ≠ o.player := by
  obtain ⟨roll, hp, hcase⟩ := mem_available_actions ho
  rcases hcase with rfl | hsingle | hsplit
  · rw [stepE_pass e roll hp]
    intro ev hev
    cases hev
  · obtain ⟨pawn, hunf, hbo⟩ := mem_singleOptions hsingle
    obtain ⟨hrowb, hltb⟩ := mem_unfinishedIdx hunf
    have hnp : pawn < e.num_pawns := row_lt_num_pawns hs hrowb
    rcases buildSingleOption_inv hbo with ⟨hneg, h6, hce, rfl⟩ |
      ⟨steps, h0, hcs, hstp, hland, rfl⟩
    · have hrange : 0 ≤ (entryOption e.current_player pawn).primary ∧
          (entryOption e.current_player pawn).primary < (e.num_pawns : Int) :=
        ⟨Int.natCast_nonneg pawn,
          by show ((pawn : Nat) : Int) < (e.num_pawns : Int); exact_mod_cast hnp⟩
      have hplX : (entryOption e.current_player pawn).player = e.current_player := rfl
      have hpassX : (entryOption e.current_player pawn).key.isPass = false := rfl
      have hsecX : (entryOption e.current_player pawn).secondary = none := rfl
      by_cases hm1 : getPos e.positions e.current_player pawn = -1
      · have hexec := @execMove_entry_ok { e with turns := e.turns + 1 } roll
          e.current_player pawn 0 h6 hm1 hce
        have heq := stepE_normal_none hp hplX hpassX hrange hsecX hexec
        rw [heq, stepTail_captures]
        exact fun ev hev => execMove_events hexec ev hev
      · have hexec := @execMove_entry_fail { e with turns := e.turns + 1 } roll
          e.current_player pawn 0 (Or.inr hm1)
        rw [stepE_normal_fail hp hplX hpassX hrange hexec]
        intro ev hev
        cases hev
    · have hrange : 0 ≤ (singleOption e.current_player pawn roll steps).primary ∧
          (singleOption e.current_player pawn roll steps).primary < (e.num_pawns : Int) :=
        ⟨Int.natCast_nonneg pawn,
          by show ((pawn : Nat) : Int) < (e.num_pawns : Int); exact_mod_cast hnp⟩
      have hexec := execMove_nonentry { e with turns := e.turns + 1 } roll
        e.current_player pawn steps
      have hplX : (singleOption e.current_player pawn roll steps).player = e.current_player := rfl
      have hpassX : (singleOption e.current_player pawn roll steps).key.isPass = false := rfl
      have hsecX : (singleOption e.current_player pawn roll steps).secondary = none := rfl
      have heq := stepE_normal_none hp hplX hpassX hrange hsecX hexec
      rw [heq, stepTail_captures]
      exact fun ev hev => execMove_events hexec ev hev
  · obtain ⟨ha, hb, hc, hd, p, s, alloc, sp, ss, hpm, hsm, hps, hal,
      hcs1, hcs2, hnz, hl1, hl2, rfl⟩ := mem_splitOptions hsplit
    obtain ⟨hpunf, -⟩ := List.mem_filter.mp hpm
    obtain ⟨hsunf, -⟩ := List.mem_filter.mp hsm
    obtain ⟨hprow, hplt⟩ := mem_unfinishedIdx hpunf
    obtain ⟨hsrow, hslt⟩ := mem_unfinishedIdx hsunf
    have hrange : 0 ≤ (splitOption e.current_player roll p s alloc sp ss).primary ∧
        (splitOption e.current_player roll p s alloc sp ss).primary < (e.num_pawns : Int) :=
      ⟨Int.natCast_nonneg p,
        by show ((p : Nat) : Int) < (e.num_pawns : Int); exact_mod_cast row_lt_num_pawns hs hprow⟩
    have hrange2 : 0 ≤ ((s : Nat) : Int) ∧ ((s : Nat) : Int) < (e.num_pawns : Int) :=
      ⟨Int.natCast_nonneg s, by exact_mod_cast row_lt_num_pawns hs hsrow⟩
    have hexec1 := execMove_nonentry { e with turns := e.turns + 1 } roll
      e.current_player p sp
    have hexec2 := execMove_nonentry
      (advancePawn { e with turns := e.turns + 1 } e.current_player p sp).1 roll
      e.current_player s ss
    have hplX : (splitOption e.current_player roll p s alloc sp ss).player
        = e.current_player := rfl
    have hpassX : (splitOption e.current_player roll p s alloc sp ss).key.isPass = false := rfl
    have hsecX : (splitOption e.current_player roll p s alloc sp ss).secondary
        = some ((s : Nat) : Int) := rfl
    have heq := stepE_normal_some hp hplX hpassX hrange hsecX hrange2 hexec1 hexec2
    rw [heq, stepTail_captures]
    intro ev hev
    rcases List.mem_append.mp hev with h1 | h1
    · exact execMove_events hexec1 ev h1
    · exact execMove_events hexec2 ev h1

/-! ### Concrete reachability chains -/

theorem reachable_collideE6 : Reachable collideE6 :=
  ReachableVia.step collideE5 (passOption 1 1)
    (ReachableVia.step collideE4 (entryOption 0 1)
      (ReachableVia.step collideE3 (passOption 1 1)
        (ReachableVia.step collideE2 (singleOption 0 0 1 1)
          (ReachableVia.step collideE1 (passOption 1 1)
            (ReachableVia.step collideR (entryOption 0 0)
              (ReachableVia.reset collideEnv0 (by decide))
              (by decide) trivial)
            (by decide) trivial)
          (by decide) trivial)
        (by decide) trivial)
      (by decide) trivial)
    (by decide) trivial

theorem reachable_negE7 : Reachable negE7 :=
  ReachableVia.step negE6 (splitOption 0 3 0 1 1 (-4) 2)
    (ReachableVia.step negE5 (passOption 1 1)
      (ReachableVia.step negE4 (entryOption 0 1)
        (ReachableVia.step negE3 (passOption 1 1)
          (ReachableVia.step negE2 (singleOption 0 0 1 1)
            (ReachableVia.step negE1 (passOption 1 1)
              (ReachableVia.step negR (entryOption 0 0)
                (ReachableVia.reset negEnv0 (by decide))
                (by decide) trivial)
              (by decide) trivial)
            (by decide) trivial)
          (by decide) trivial)
        (by decide) trivial)
      (by decide) trivial)
    (by decide) trivial

theorem reachable_negE8 : Reachable negE8 :=
  ReachableVia.step negE7 (passOption 1 1) reachable_negE7 (by decide) trivial

theorem stepTail_obligations {e : Env} {o : ActionOption} {e2 : Env}
    (heqd : (stepE e o).done = stepDoneFlag e2)
    (heqe : (stepE e o).env = advanceTurn e2 (stepDoneFlag e2))
    (hmeta : SameMeta e2 { e with turns := e.turns + 1 }) :
    (stepE e o).env = advanceTurn e2 ((stepE e o).done) ∧
    (stepE e o).done = (playerFinishedB e2 0 || otherWinnerB e2
        || decide (e.max_turns ≤ e.turns + 1)) ∧
    ((stepE e o).done = true → (stepE e o).env.pending_roll = none) ∧
    ((stepE e o).done = false →
      (stepE e o).env.current_player = (e.current_player + 1) % e.num_players ∧
      (stepE e o).env.pending_roll = some (drawRoll e2) ∧
      (stepE e o).env.rngIdx = e.rngIdx + 1) := by
  have hmax : e2.max_turns = e.max_turns := by
    unfold Env.max_turns; rw [hmeta.1]
  have hturns : e2.turns = e.turns + 1 := hmeta.2.2.2.1
  have hnum : e2.num_players = e.num_players := by
    unfold Env.num_players; rw [hmeta.1]
  have hcur : e2.current_player = e.current_player := hmeta.2.2.2.2.1
  have hidx : e2.rngIdx = e.rngIdx := hmeta.2.2.1
  refine ⟨?_, ?_, ?_, ?_⟩
  · rw [heqd, heqe]
  · rw [heqd, stepDoneFlag_eq hmax hturns]
  · intro hdt
    rw [heqd] at hdt
    rw [heqe, hdt, advanceTurn_true]
  · intro hdf
    rw [heqd] at hdf
    rw [heqe, hdf]
    refine ⟨?_, ?_, ?_⟩
    · rw [advanceTurn_current_false, hcur, hnum]
    · rw [advanceTurn_pending_false]
    · rw [advanceTurn_rngIdx_false, hidx]

/-! ### C2 — same-seat separation and capture exclusivity -/

/-- C2 (counterexample): a split move whose two sub-moves were each validated
by `_can_land_without_friend` at enumeration time still lands both pawns of
seat 0 on the same non-finishing absolute square — the secondary validation
excludes only the primary pawn's *old* square, not its allocation target —
and the violating state is reachable by legal play from `reset`. -/
theorem c2_counterexample :
    Reachable collideRes.env ∧ getPos collideRes.env.positions 0 0 = 2 ∧
      getPos collideRes.env.positions 0 1 = 2 ∧ ¬ SameSeatSeparated collideRes.env := by
  refine ⟨?_, by decide, by decide, by decide⟩
  exact ReachableVia.step collideE6 (splitOption 0 3 1 0 2 2 1) reachable_collideE6
    (by decide) trivial

/-- C2 (amended): along play that never takes a split option the invariant
holds — after any step no two pawns of one seat occupy the same non-finishing
absolute square — and for **every** reachable state (play through split
moves included) no capture event of a step on a legal option ever names a
pawn of the acting seat. -/
theorem c2_same_seat_separation (e : Env) :
    (ReachableVia noSplit e → SameSeatSeparated e) ∧
      (Reachable e → ∀ o ∈ available_actions e,
        ∀ ev ∈ (stepE e o).info.captures, ev.player ≠ o.player) := by
  constructor
  · exact fun hr => reachable_noSplit_separated hr
  · intro hr o ho
    exact stepE_captures_ne (reachableVia_core hr).2 ho

/-- C2 witness: the separation invariant at a freshly reset two-pawn
environment, and the capture-exclusivity half at the split-reached state
`collideE6` taking the colliding split option itself. -/
theorem c2_same_seat_separation_witness :
    SameSeatSeparated collideR ∧
      ∀ ev ∈ (stepE collideE6 (splitOption 0 3 1 0 2 2 1)).info.captures,
        ev.player ≠ (splitOption 0 3 1 0 2 2 1).player :=
  ⟨(c2_same_seat_separation collideR).1 (ReachableVia.reset collideEnv0 (by decide)),
    (c2_same_seat_separation collideE6).2 reachable_collideE6
      (splitOption 0 3 1 0 2 2 1) (by decide)⟩

/-! ### C9 — position bounds -/

/-- C9 (counterexample): with the unvalidated negative `power_bonus = -5` a
legal split move computes `min(1 + (-5), 7) = -4` steps and drives pawn 0 of
seat 0 to progress `-3`, outside the claimed interval
`[-1, board_size + num_pawns)`; the state is reachable by legal play. -/
theorem c9_counterexample :
    Reachable negE7 ∧ negE7.power_bonus = -5 ∧ getPos negE7.positions 0 0 = -3 ∧
      ¬ (-1 ≤ getPos negE7.positions 0 0) :=
  ⟨reachable_negE7, by decide, by decide, by decide⟩

/-- C9 (amended): for every reachable state of a configuration with
**nonnegative** `power_bonus`, every pawn's progress value lies in
`[-1, board_size + num_pawns)`; moreover the finishing-lane slot
`_next_finish_slot` computes for a seat that still has a pawn on the lap is
strictly below `num_pawns`. -/
theorem c9_positions_in_bounds (e : Env) (hr : Reachable e) (hpb : 0 ≤ e.power_bonus) :
    InBounds e ∧
      ∀ pl pw, pl < e.positions.length → pw < (e.positions.getD pl []).length →
        0 ≤ getPos e.positions pl pw → getPos e.positions pl pw < (e.board_size : Int) →
          nextFinishSlot e pl < (e.num_pawns : Int) := by
  refine ⟨reachableVia_inbounds hr hpb, ?_⟩
  intro pl pw hpl hpw h0 hlt
  have hsh := (reachableVia_core hr).2
  have hslot := nextFinishSlot_lt e pl pw h0 hlt
  rw [hsh.2 pl hpl] at hslot
  exact hslot

/-- C9 witness: the amended bound evaluated at the reset chase environment. -/
theorem c9_positions_in_bounds_witness : InBounds chaseR :=
  (c9_positions_in_bounds chaseR (ReachableVia.reset chaseEnv0 (by decide)) (by decide)).1

/-! ### C6 — termination flag and turn rotation -/

/-- C6 (counterexample): at `negE8` (reachable) the turn counter is 8 with
`max_turns = 9`; `available_actions` offers the base entry for seat 0's pawn
stranded at progress `-3`, `step` on it rejects the entry
(`positions[player][pawn] != -1`), the counter becomes `9 = max_turns`, yet
`done = false` is returned and the pending roll is not cleared — the claimed
termination condition fails on this valid step. -/
theorem c6_counterexample :
    Reachable negE8 ∧ entryOption 0 0 ∈ available_actions negE8 ∧
      negE8.max_turns = 9 ∧ negRes9.env.turns = 9 ∧
      negRes9.done = false ∧ negRes9.env.pending_roll ≠ none :=
  ⟨reachable_negE8, by decide, by decide, by decide, by decide, by decide⟩

/-- C6 (amended): for every reachable state with **nonnegative**
`power_bonus` and every option drawn from `available_actions`, there is a
post-move environment `e2` — same configuration, seat, and RNG position,
turn counter `turns + 1` — such that the step's `done` flag is exactly
`playerFinishedB e2 0 || otherWinnerB e2 || decide (max_turns ≤ turns + 1)`,
the successor state is `advanceTurn e2 done`, a true flag clears the pending
roll, and a false flag advances the seat round-robin, draws a fresh roll,
and advances the RNG index.  (Without the nonnegativity restriction the flag
can stay false with the counter at `max_turns`, via the invalid-entry path —
see the counterexample.) -/
theorem c6_done_and_turn_rotation (e : Env) (o : ActionOption) (hr : Reachable e)
    (hpb : 0 ≤ e.power_bonus) (ho : o ∈ available_actions e) :
    ∃ e2 : Env,
      e2.cfg = e.cfg ∧ e2.turns = e.turns + 1 ∧
      e2.current_player = e.current_player ∧
      e2.rngIdx = e.rngIdx ∧ e2.rngStream = e.rngStream ∧
      (stepE e o).env = advanceTurn e2 ((stepE e o).done) ∧
      (stepE e o).done = (playerFinishedB e2 0 || otherWinnerB e2
          || decide (e.max_turns ≤ e.turns + 1)) ∧
      ((stepE e o).done = true → (stepE e o).env.pending_roll = none) ∧
      ((stepE e o).done = false →
        (stepE e o).env.current_player = (e.current_player + 1) % e.num_players ∧
        (stepE e o).env.pending_roll = some (drawRoll e2) ∧
        (stepE e o).env.rngIdx = e.rngIdx + 1) := by
  have hcore := reachableVia_core hr
  have hwf := hcore.1
  have hs := hcore.2
  have hin : InBounds e := reachableVia_inbounds hr hpb
  obtain ⟨roll, hp, hcase⟩ := mem_available_actions ho
  have how : otherWinnerB e = false := by
    rcases reachableVia_alive hr with hnone | hok
    · rw [hnone] at hp; cases hp
    · exact hok
  have how1 : otherWinnerB { e with turns := e.turns + 1 } = false := by
    rw [otherWinnerB_congr (updTurns_cfg e _) (updTurns_positions e _)]
    exact how
  rcases hcase with rfl | hsingle | hsplit
  · have heq := stepE_pass e roll hp
    have heqd : (stepE e (passOption e.current_player roll)).done
        = stepDoneFlag { e with turns := e.turns + 1 } := by
      rw [heq]
      exact checkGlobalEnd_eq_doneFlag how1
    have heqe : (stepE e (passOption e.current_player roll)).env
        = advanceTurn { e with turns := e.turns + 1 }
            (stepDoneFlag { e with turns := e.turns + 1 }) := by
      rw [heq, checkGlobalEnd_eq_doneFlag how1]
    exact ⟨{ e with turns := e.turns + 1 }, rfl, rfl, rfl, rfl, rfl,
      stepTail_obligations heqd heqe (sameMeta_refl { e with turns := e.turns + 1 })⟩
  · obtain ⟨pawn, hunf, hbo⟩ := mem_singleOptions hsingle
    obtain ⟨hrowb, hltb⟩ := mem_unfinishedIdx hunf
    have hnp : pawn < e.num_pawns := row_lt_num_pawns hs hrowb
    rcases buildSingleOption_inv hbo with ⟨hneg, h6, hce, rfl⟩ |
      ⟨steps, h0, hcs, hstp, hland, rfl⟩
    · have hrange : 0 ≤ (entryOption e.current_player pawn).primary ∧
          (entryOption e.current_player pawn).primary < (e.num_pawns : Int) :=
        ⟨Int.natCast_nonneg pawn,
          by show ((pawn : Nat) : Int) < (e.num_pawns : Int); exact_mod_cast hnp⟩
      have hm1 : getPos e.positions e.current_player pawn = -1 :=
        getPos_neg_eq_neg_one hin hneg
      have hexec := @execMove_entry_ok { e with turns := e.turns + 1 } roll
        e.current_player pawn 0 h6 hm1 hce
      have hplX : (entryOption e.current_player pawn).player = e.current_player := rfl
      have hpassX : (entryOption e.current_player pawn).key.isPass = false := rfl
      have hsecX : (entryOption e.current_player pawn).secondary = none := rfl
      have heq := stepE_normal_none hp hplX hpassX hrange hsecX hexec
      have hmeta := execMove_meta hexec
      refine ⟨_, hmeta.1, hmeta.2.2.2.1, hmeta.2.2.2.2.1, hmeta.2.2.1, hmeta.2.1,
        stepTail_obligations ?_ ?_ hmeta⟩
      · rw [heq, stepTail_done]
      · rw [heq, stepTail_env]
    · have hrange : 0 ≤ (singleOption e.current_player pawn roll steps).primary ∧
          (singleOption e.current_player pawn roll steps).primary < (e.num_pawns : Int) :=
        ⟨Int.natCast_nonneg pawn,
          by show ((pawn : Nat) : Int) < (e.num_pawns : Int); exact_mod_cast hnp⟩
      have hexec := execMove_nonentry { e with turns := e.turns + 1 } roll
        e.current_player pawn steps
      have hplX : (singleOption e.current_player pawn roll steps).player = e.current_player := rfl
      have hpassX : (singleOption e.current_player pawn roll steps).key.isPass = false := rfl
      have hsecX : (singleOption e.current_player pawn roll steps).secondary = none := rfl
      have heq := stepE_normal_none hp hplX hpassX hrange hsecX hexec
      have hmeta := execMove_meta hexec
      refine ⟨_, hmeta.1, hmeta.2.2.2.1, hmeta.2.2.2.2.1, hmeta.2.2.1, hmeta.2.1,
        stepTail_obligations ?_ ?_ hmeta⟩
      · rw [heq, stepTail_done]
      · rw [heq, stepTail_env]
  · obtain ⟨ha, hb, hc, hd, p, s, alloc, sp, ss, hpm, hsm, hps, hal,
      hcs1, hcs2, hnz, hl1, hl2, rfl⟩ := mem_splitOptions hsplit
    obtain ⟨hpunf, -⟩ := List.mem_filter.mp hpm
    obtain ⟨hsunf, -⟩ := List.mem_filter.mp hsm
    obtain ⟨hprow, hplt⟩ := mem_unfinishedIdx hpunf
    obtain ⟨hsrow, hslt⟩ := mem_unfinishedIdx hsunf
    have hrange : 0 ≤ (splitOption e.current_player roll p s alloc sp ss).primary ∧
        (splitOption e.current_player roll p s alloc sp ss).primary < (e.num_pawns : Int) :=
      ⟨Int.natCast_nonneg p,
        by show ((p : Nat) : Int) < (e.num_pawns : Int); exact_mod_cast row_lt_num_pawns hs hprow⟩
    have hrange2 : 0 ≤ ((s : Nat) : Int) ∧ ((s : Nat) : Int) < (e.num_pawns : Int) :=
      ⟨Int.natCast_nonneg s, by exact_mod_cast row_lt_num_pawns hs hsrow⟩
    have hexec1 := execMove_nonentry { e with turns := e.turns + 1 } roll
      e.current_player p sp
    have hexec2 := execMove_nonentry
      (advancePawn { e with turns := e.turns + 1 } e.current_player p sp).1 roll
      e.current_player s ss
    have hplX : (splitOption e.current_player roll p s alloc sp ss).player
        = e.current_player := rfl
    have hpassX : (splitOption e.current_player roll p s alloc sp ss).key.isPass = false := rfl
    have hsecX : (splitOption e.current_player roll p s alloc sp ss).secondary
        = some ((s : Nat) : Int) := rfl
    have heq := stepE_normal_some hp hplX hpassX hrange hsecX hrange2 hexec1 hexec2
    have hmeta := sameMeta_trans (execMove_meta hexec2) (execMove_meta hexec1)
    refine ⟨_, hmeta.1, hmeta.2.2.2.1, hmeta.2.2.2.2.1, hmeta.2.2.1, hmeta.2.1,
      stepTail_obligations ?_ ?_ hmeta⟩
    · rw [heq, stepTail_done]
    · rw [heq, stepTail_env]

/-- C6 witness: the amended characterization evaluated at the reset chase
environment and its base-entry option. -/
theorem c6_done_and_turn_rotation_witness :
    ∃ e2 : Env,
      e2.cfg = chaseR.cfg ∧ e2.turns = chaseR.turns + 1 ∧
      e2.current_player = chaseR.current_player ∧
      e2.rngIdx = chaseR.rngIdx ∧ e2.rngStream = chaseR.rngStream ∧
      (stepE chaseR (entryOption 0 0)).env
        = advanceTurn e2 ((stepE chaseR (entryOption 0 0)).done) ∧
      (stepE chaseR (entryOption 0 0)).done
        = (playerFinishedB e2 0 || otherWinnerB e2
            || decide (chaseR.max_turns ≤ chaseR.turns + 1)) ∧
      ((stepE chaseR (entryOption 0 0)).done = true →
        (stepE chaseR (entryOption 0 0)).env.pending_roll = none) ∧
      ((stepE chaseR (entryOption 0 0)).done = false →
        (stepE chaseR (entryOption 0 0)).env.current_player
          = (chaseR.current_player + 1) % chaseR.num_players ∧
        (stepE chaseR (entryOption 0 0)).env.pending_roll = some (drawRoll e2) ∧
        (stepE chaseR (entryOption 0 0)).env.rngIdx = chaseR.rngIdx + 1) :=
  c6_done_and_turn_rotation chaseR (entryOption 0 0)
    (ReachableVia.reset chaseEnv0 (by decide)) (by decide) (by decide)

end Ludo
